import Mathlib

/-!
Shallow embedding of `src/hw-3.js`: a `TimersManager` class holding a list of
timer descriptors (`this.timers`), a global activation flag (`this.allStarted`)
and an execution log (`this.logData`), driving the platform timer primitives
`setTimeout`/`setInterval`/`clearTimeout`/`clearInterval`.

The platform's pending-timer queue is modelled explicitly (field `pending` of
`Sys`, with `nextId` the allocator for timer handles, starting at 1 so every
allocated handle is truthy).  JS values appearing as descriptor fields, job
arguments and job results are modelled by `JSVal`; a JS number (`JSNum`) is
an integer or `NaN`, whose comparisons are always false; a
descriptor property that may also be a function is a `JSProp`.  A job is a
deterministic function from its argument list to either a result or a thrown
error (`Except JsError JSVal`).  Methods that can throw return
`Except JsError α × Sys`: the second component is the state of the manager
when the method returns or throws (in the source, every `throw` in `add` and
in `_findTimerIndex` happens before any mutation of `this`).
-/

/-- A JS number: an integer value or `NaN` (`typeof NaN === 'number'`).
`NaN` matters because every comparison on it is false, which defeats the
range validation in `add`. -/
inductive JSNum where
  | int (n : Int)
  | nan
deriving Repr, DecidableEq

/-- The JS `<` comparison on numbers: false whenever either side is `NaN`
(`a > b` is `jsNumLt b a`). -/
def jsNumLt : JSNum → JSNum → Bool
  | JSNum.int a, JSNum.int b => a < b
  | _, _ => false

/-- A JS primitive value. -/
inductive JSVal where
  | vnum (n : JSNum)
  | vstr (s : String)
  | vbool (b : Bool)
  | vnull
  | vundef
deriving Repr, DecidableEq

/-- A JS error object as recorded by `_log`: its `name`, `message`, `stack`. -/
structure JsError where
  name : String
  message : String
  stack : String
deriving Repr, DecidableEq

/-- `new TypeError(message)` (the `stack` string is platform-generated; it is
modelled as empty for errors constructed by the manager itself). -/
def jsTypeError (message : String) : JsError :=
  { name := "TypeError", message := message, stack := "" }

/-- `new RangeError(message)`. -/
def jsRangeError (message : String) : JsError :=
  { name := "RangeError", message := message, stack := "" }

/-- `new Error(message)`. -/
def jsError (message : String) : JsError :=
  { name := "Error", message := message, stack := "" }

/-- A timer job: a callable from its bound argument list to a return value or
a thrown error. -/
def Job : Type := List JSVal → Except JsError JSVal

/-- A property of the raw descriptor object passed to `add`: either a
primitive value or a callable (so that `typeof job === 'function'` is
expressible). -/
inductive JSProp where
  | prim (v : JSVal)
  | fn (f : Job)

/-- The descriptor object passed to `add`, before validation: its four
properties may hold values of any type. -/
structure RawDescriptor where
  name : JSProp
  delay : JSProp
  interval : JSProp
  job : JSProp

/-- A validated descriptor as stored in `this.timers` after `add` set
`callbackParams` and `timerId` on it.  `timerId = none` models the JS `null`
handle. -/
structure Descriptor where
  name : String
  delay : JSNum
  interval : Bool
  job : Job
  callbackParams : List JSVal
  timerId : Option Nat

/-- Default descriptor used by `List.getD` (all in-range accesses are guarded
by `findIndex`-style bounds, so it is never actually read). -/
def defaultDescriptor : Descriptor :=
  { name := "", delay := JSNum.int 0, interval := false,
    job := fun _ => Except.ok JSVal.vundef,
    callbackParams := [], timerId := none }

/-- One entry of `this.logData` (the JS property `in` is called `inp` here;
`created` is a logical timestamp: the length of the log at append time, which
is strictly monotone in append order). -/
structure LogEntry where
  name : String
  inp : List JSVal
  out : JSVal
  created : Nat
  error : Option JsError
deriving Repr, DecidableEq

/-- A platform timer armed by `setTimeout`/`setInterval` and not yet cleared
or (for one-shot timers) fired.  `dname`, `dparams`, `djob` are the
descriptor's `name`, `callbackParams` and `job`: the `safeJob` closure built
in `_startTimer` captures `job` and `callbackParams` by destructuring, and
reads `descriptor.name`/`descriptor.callbackParams` through the descriptor
reference at log time; both agree because neither property is ever written
after `add`. -/
structure PendingTimer where
  id : Nat
  interval : Bool
  delay : JSNum
  dname : String
  dparams : List JSVal
  djob : Job

/-- The whole system state: the `TimersManager` instance (`timers`,
`allStarted`, `logData`) together with the platform timer queue (`pending`)
and its handle allocator (`nextId`). -/
structure Sys where
  timers : List Descriptor
  allStarted : Bool
  logData : List LogEntry
  pending : List PendingTimer
  nextId : Nat

/-- `new TimersManager()` on a fresh platform. -/
def Sys.init : Sys :=
  { timers := [], allStarted := false, logData := [], pending := [], nextId := 1 }

/-- `_log(descriptor, out, error)`: appends one entry recording the
descriptor's `name` and `callbackParams`, the result `out`, a timestamp, and
the error's `name`/`message`/`stack` when an error is passed.  Passed `name`
and `params` stand for `descriptor.name` and `descriptor.callbackParams`. -/
def Sys._log (m : Sys) (name : String) (params : List JSVal)
    (out : JSVal) (error : Option JsError) : Sys :=
  { m with logData := m.logData ++
      [{ name := name, inp := params, out := out, created := m.logData.length,
         error := error.map (fun e => { name := e.name, message := e.message, stack := e.stack }) }] }

/-- `print()`: `return this.logData` — the internal array itself, not a copy. -/
def Sys.print (m : Sys) : List LogEntry :=
  m.logData

/-- JS `Array.prototype.findIndex` over the registry: first index whose
descriptor has the given name, else `-1`. -/
def jsFindIndex : List Descriptor → String → Int
  | [], _ => -1
  | d :: rest, timerName =>
      if d.name = timerName then 0
      else if jsFindIndex rest timerName < 0 then -1
      else jsFindIndex rest timerName + 1

/-- The guard of `_findTimerIndex`:
`typeof timerName !== 'string' || !timerName` fails exactly when the value is
a non-empty string, which this helper extracts. -/
def asValidName : JSProp → Option String
  | JSProp.prim (JSVal.vstr s) => if s = "" then none else some s
  | _ => none

/-- `_findTimerIndex(timerName)`: throws a `TypeError` unless `timerName` is a
non-empty string; otherwise returns the `findIndex` result. -/
def Sys._findTimerIndex (m : Sys) (timerName : JSProp) : Except JsError Int :=
  match asValidName timerName with
  | none => Except.error (jsTypeError "Timer name must be string type!")
  | some s => Except.ok (jsFindIndex m.timers s)

/-- The pending platform timer created when `_startTimer` arms `descriptor`
with the fresh handle `id`. -/
def mkPending (d : Descriptor) (id : Nat) : PendingTimer :=
  { id := id, interval := d.interval, delay := d.delay,
    dname := d.name, dparams := d.callbackParams, djob := d.job }

/-- `_startTimer(descriptor)`: if the descriptor's `timerId` is falsy (null),
arms `setInterval`/`setTimeout` with the `safeJob` closure and returns the new
handle; otherwise returns `null` (the initial value of `newTimerId`) without
touching the platform. -/
def Sys._startTimer (m : Sys) (d : Descriptor) : Option Nat × Sys :=
  match d.timerId with
  | some _ => (none, m)
  | none =>
      (some m.nextId,
       { m with pending := m.pending ++ [mkPending d m.nextId],
                nextId := m.nextId + 1 })

/-- `_stopTimer(descriptor)`: if a handle is present, clears the matching
platform timer (`clearInterval`/`clearTimeout` both cancel the pending timer
with that handle; clearing an already-fired handle is a no-op). -/
def Sys._stopTimer (m : Sys) (d : Descriptor) : Sys :=
  match d.timerId with
  | none => m
  | some id => { m with pending := m.pending.filter (fun pt => pt.id ≠ id) }

/-- `add(descriptor, ...callbackParams)`: the validation chain of `hw-3.js`
lines 78–105, in source order; on success stores `callbackParams`, initializes
`timerId` to null, pushes the descriptor and returns `this`.  The returned
state is `m` itself on every throw: in the source, all throws precede the
mutations of line 99–101. -/
def Sys.add (m : Sys) (descriptor : RawDescriptor) (callbackParams : List JSVal) :
    Except JsError Unit × Sys :=
  if m.allStarted then
    (Except.error (jsError "Can not add new timer after start!"), m)
  else
    -- the `this._findTimerIndex(descriptor.name)` call, inlined: its
    -- `TypeError` propagates out of `add` with `this` unchanged
    match asValidName descriptor.name with
    | none => (Except.error (jsTypeError "Timer name must be string type!"), m)
    | some s =>
      if 0 ≤ jsFindIndex m.timers s then
        (Except.error (jsError ("Timer \"" ++ s ++ "\" already exists!")), m)
      else
        match descriptor.delay with
        | JSProp.prim (JSVal.vnum delay) =>
          if jsNumLt delay (JSNum.int 0) || jsNumLt (JSNum.int 5000) delay then
            (Except.error (jsRangeError "Timer delay must be in range [0..5000]!"), m)
          else
            match descriptor.interval with
            | JSProp.prim (JSVal.vbool interval) =>
              match descriptor.job with
              | JSProp.fn job =>
                  (Except.ok (),
                   { m with timers := m.timers ++
                       [{ name := s, delay := delay, interval := interval, job := job,
                          callbackParams := callbackParams, timerId := none }] })
              | _ => (Except.error (jsTypeError "Timer job must be a function!"), m)
            | _ => (Except.error (jsTypeError "Timer interval must be boolean type!"), m)
        | _ => (Except.error (jsTypeError "Timer delay must be numeric type!"), m)

/-- `pause(timerName)`: resolves the name (possibly throwing), and if found,
clears the platform timer (when armed) and nulls the stored handle; returns
the resolved index. -/
def Sys.pause (m : Sys) (timerName : JSProp) : Except JsError Int × Sys :=
  match m._findTimerIndex timerName with
  | Except.error e => (Except.error e, m)
  | Except.ok idx =>
      if 0 ≤ idx then
        let d := m.timers.getD idx.toNat defaultDescriptor
        let m1 := m._stopTimer d
        (Except.ok idx,
         { m1 with timers := m1.timers.set idx.toNat { d with timerId := none } })
      else (Except.ok idx, m)

/-- `remove(timerName)`: `pause(timerName)`, then if the index was found,
`splice` the descriptor out of the registry. -/
def Sys.remove (m : Sys) (timerName : JSProp) : Except JsError Unit × Sys :=
  match m.pause timerName with
  | (Except.error e, m1) => (Except.error e, m1)
  | (Except.ok idx, m1) =>
      if 0 ≤ idx then (Except.ok (), { m1 with timers := m1.timers.eraseIdx idx.toNat })
      else (Except.ok (), m1)

/-- `resume(timerName)`: resolves the name (possibly throwing), and if found,
stores `_startTimer`'s return value as the new handle (which is `null` when
the descriptor was already armed); returns the resolved index. -/
def Sys.resume (m : Sys) (timerName : JSProp) : Except JsError Int × Sys :=
  match m._findTimerIndex timerName with
  | Except.error e => (Except.error e, m)
  | Except.ok idx =>
      if 0 ≤ idx then
        let d := m.timers.getD idx.toNat defaultDescriptor
        let p := m._startTimer d
        (Except.ok idx,
         { p.2 with timers := p.2.timers.set idx.toNat { d with timerId := p.1 } })
      else (Except.ok idx, m)

/-- One iteration of the `forEach` in `start`: re-reads `this.timers[i]`,
arms it through `_startTimer` and stores the returned handle. -/
def startStep (m : Sys) (i : Nat) : Sys :=
  let d := m.timers.getD i defaultDescriptor
  let p := m._startTimer d
  { p.2 with timers := p.2.timers.set i { d with timerId := p.1 } }

/-- The `forEach` of `start`, visiting indices `i, i+1, …` for `n` steps
(the loop body never changes the registry's length). -/
def startLoop (m : Sys) (i : Nat) : Nat → Sys
  | 0 => m
  | n + 1 => startLoop (startStep m i) (i + 1) n

/-- `start()`: arms every descriptor in registry order unless `allStarted` is
already set; always leaves `allStarted = true`. -/
def Sys.start (m : Sys) : Sys :=
  let m1 := if m.allStarted then m else startLoop m 0 m.timers.length
  { m1 with allStarted := true }

/-- One iteration of the `forEach` in `stop`: clears the platform timer of
`this.timers[i]` (when armed) and nulls its handle. -/
def stopStep (m : Sys) (i : Nat) : Sys :=
  let d := m.timers.getD i defaultDescriptor
  let m1 := m._stopTimer d
  { m1 with timers := m1.timers.set i { d with timerId := none } }

/-- The `forEach` of `stop`. -/
def stopLoop (m : Sys) (i : Nat) : Nat → Sys
  | 0 => m
  | n + 1 => stopLoop (stopStep m i) (i + 1) n

/-- `stop()`: disarms every descriptor and nulls its handle unless
`allStarted` is already false; always leaves `allStarted = false`. -/
def Sys.stop (m : Sys) : Sys :=
  let m1 := if m.allStarted then stopLoop m 0 m.timers.length else m
  { m1 with allStarted := false }

/-- The `safeJob` closure of `_startTimer`: runs the job on its bound
arguments; on normal return logs the result with no error, on a throw logs
`result` (still `null`) together with the caught error.  It is a total
function into `Sys`: the throw never escapes the wrapper. -/
def safeJob (m : Sys) (dname : String) (dparams : List JSVal) (djob : Job) : Sys :=
  match djob dparams with
  | Except.ok result => m._log dname dparams result none
  | Except.error error => m._log dname dparams JSVal.vnull (some error)

/-- The platform fires the pending timer with handle `id` (if still armed):
a one-shot timer leaves the queue before its callback runs, an interval timer
stays armed; then its `safeJob` runs. -/
def Sys.fire (m : Sys) (id : Nat) : Sys :=
  match m.pending.find? (fun pt => pt.id == id) with
  | none => m
  | some pt =>
      let m1 := if pt.interval then m
                else { m with pending := m.pending.filter (fun q => q.id ≠ id) }
      safeJob m1 pt.dname pt.dparams pt.djob

/-- An observable step of the system: one manager method call (throwing or
not) or one platform timer firing. -/
inductive Op where
  | add (descriptor : RawDescriptor) (callbackParams : List JSVal)
  | start
  | stop
  | pause (timerName : JSProp)
  | resume (timerName : JSProp)
  | remove (timerName : JSProp)
  | fire (id : Nat)

/-- The state after executing one step (for a throwing method call, the state
at the moment the exception reaches the caller). -/
def applyOp (m : Sys) : Op → Sys
  | Op.add d ps => (m.add d ps).2
  | Op.start => m.start
  | Op.stop => m.stop
  | Op.pause nm => (m.pause nm).2
  | Op.resume nm => (m.resume nm).2
  | Op.remove nm => (m.remove nm).2
  | Op.fire id => m.fire id

/-- Executing a whole sequence of steps from a state. -/
def run (m : Sys) (ops : List Op) : Sys :=
  ops.foldl applyOp m

/-- Model of a caller mutating, in place, the sequence returned by `print()`:
since `print` returns `this.logData` itself (the same array object, not a
copy), the mutated array is the manager's internal log. -/
def mutateReturnedLog (m : Sys) (f : List LogEntry → List LogEntry) : Sys :=
  { m with logData := f m.print }

/-- Modelled from the spec: `remove` is "equivalent to `pause(name)` followed
by, if the index was found, deleting that descriptor from the registry", to be
compared with `Sys.remove` (the definition taken from the source). -/
def removeSpec (m : Sys) (timerName : JSProp) : Except JsError Unit × Sys :=
  match m.pause timerName with
  | (Except.error e, m1) => (Except.error e, m1)
  | (Except.ok idx, m1) =>
      if 0 ≤ idx then (Except.ok (), { m1 with timers := m1.timers.eraseIdx idx.toNat })
      else (Except.ok (), m1)

/-- Every registered descriptor holds the handle of an armed platform timer
bearing its name. -/
def AllArmed (m : Sys) : Prop :=
  ∀ i, i < m.timers.length →
    ∃ id, (m.timers.getD i defaultDescriptor).timerId = some id ∧
      ∃ pt ∈ m.pending, pt.id = id ∧
        pt.dname = (m.timers.getD i defaultDescriptor).name

/-- The registry holds no two descriptors with the same name. -/
def NamesDistinct (m : Sys) : Prop :=
  m.timers.Pairwise (fun d e => d.name ≠ e.name)

/-- Every armed platform timer is owned: some registry descriptor bears its
name and currently holds its handle. -/
def PendingOwned (m : Sys) : Prop :=
  ∀ pt ∈ m.pending, ∃ i, i < m.timers.length ∧
    (m.timers.getD i defaultDescriptor).name = pt.dname ∧
    (m.timers.getD i defaultDescriptor).timerId = some pt.id

/-- The inductive invariant behind the absent-handle property. -/
def SysInv (m : Sys) : Prop := NamesDistinct m ∧ PendingOwned m

/-- Steps that never hand an already-armed descriptor to `_startTimer`:
`resume` is only called when the named descriptor (if found) is not armed,
and `start` only when it will not traverse an armed descriptor (`allStarted`
still set, so it does not re-arm, or no descriptor armed).  All other steps
are unrestricted. -/
def SafeOp (m : Sys) : Op → Prop
  | Op.resume nm => ∀ s, asValidName nm = some s → 0 ≤ jsFindIndex m.timers s →
      (m.timers.getD (jsFindIndex m.timers s).toNat defaultDescriptor).timerId = none
  | Op.start => m.allStarted = true ∨
      ∀ i, i < m.timers.length → (m.timers.getD i defaultDescriptor).timerId = none
  | _ => True

/-- States reachable from a fresh manager by safe steps. -/
inductive SafeReach : Sys → Prop where
  | init : SafeReach Sys.init
  | step {m : Sys} {op : Op} : SafeReach m → SafeOp m op → SafeReach (applyOp m op)

/-- Concrete one-shot descriptor used in witnesses: a valid timer whose job
returns `42`. -/
def rawA : RawDescriptor :=
  { name := JSProp.prim (JSVal.vstr "a"),
    delay := JSProp.prim (JSVal.vnum (JSNum.int 0)),
    interval := JSProp.prim (JSVal.vbool false),
    job := JSProp.fn (fun _ => Except.ok (JSVal.vnum (JSNum.int 42))) }

/-- Concrete recurring descriptor used in witnesses: a valid interval timer
whose job throws `Error("x")`. -/
def rawB : RawDescriptor :=
  { name := JSProp.prim (JSVal.vstr "b"),
    delay := JSProp.prim (JSVal.vnum (JSNum.int 100)),
    interval := JSProp.prim (JSVal.vbool true),
    job := JSProp.fn (fun _ => Except.error { name := "Error", message := "x", stack := "s" }) }

/-- The JS name value `'a'`. -/
def nameA : JSProp := JSProp.prim (JSVal.vstr "a")

/-- The JS name value `'b'`. -/
def nameB : JSProp := JSProp.prim (JSVal.vstr "b")

/-- A state with one registered, never-started timer: `add(rawA)` on a fresh
manager. -/
def sysA : Sys := (Sys.init.add rawA []).2

/-- `add(rawA)`; `start()`: the one-shot timer `"a"` is armed with handle 1. -/
def sysAStarted : Sys := sysA.start

/-- `add(rawA)`; `start()`; `fire 1`: the job of `"a"` ran once and was
logged. -/
def sysAFired : Sys := sysAStarted.fire 1

/-- `add(rawA)`; `start()`; `resume('a')`: `_startTimer` sees the armed
handle, returns `null`, and `resume` overwrites the stored handle with it
while the platform timer stays armed. -/
def sysOrphan : Sys := (sysAStarted.resume nameA).2

/-- `add(rawA)`; `add(rawB)`: two registered timers, not yet started. -/
def sysAB : Sys := (sysA.add rawB []).2

/-- `add(rawA)`; `add(rawB)`; `start()`: both timers armed (handles 1, 2). -/
def sysABStarted : Sys := sysAB.start

/-- ... then `pause('a')`: timer `"a"` disarmed, `"b"` still armed. -/
def sysABPausedA : Sys := (sysABStarted.pause nameA).2

/-- A descriptor whose `delay` is out of range (6000). -/
def rawC6000 : RawDescriptor :=
  { name := JSProp.prim (JSVal.vstr "c"),
    delay := JSProp.prim (JSVal.vnum (JSNum.int 6000)),
    interval := JSProp.prim (JSVal.vbool false),
    job := JSProp.fn (fun _ => Except.ok JSVal.vundef) }

/-- A descriptor whose `delay` is a string (non-numeric). -/
def rawCstr : RawDescriptor :=
  { name := JSProp.prim (JSVal.vstr "c"), delay := JSProp.prim (JSVal.vstr "soon"),
    interval := JSProp.prim (JSVal.vbool false),
    job := JSProp.fn (fun _ => Except.ok JSVal.vundef) }

/-- A descriptor whose `delay` is `NaN`: numeric by `typeof`, outside the
closed interval `[0, 5000]`, yet both range comparisons are false. -/
def rawCnan : RawDescriptor :=
  { name := JSProp.prim (JSVal.vstr "c"),
    delay := JSProp.prim (JSVal.vnum JSNum.nan),
    interval := JSProp.prim (JSVal.vbool false),
    job := JSProp.fn (fun _ => Except.ok JSVal.vundef) }

/-! ### List helpers -/

theorem getD_set_self {α : Type} (l : List α) (i : Nat) (a d : α) (h : i < l.length) :
    (l.set i a).getD i d = a := by
  rw [List.getD_eq_getElem?_getD, List.getElem?_set_self h]
  rfl

theorem getD_set_ne {α : Type} (l : List α) {i j : Nat} (a d : α) (h : i ≠ j) :
    (l.set i a).getD j d = l.getD j d := by
  rw [List.getD_eq_getElem?_getD, List.getElem?_set_ne h, ← List.getD_eq_getElem?_getD]

theorem set_getD_eq_self {α : Type} (l : List α) (i : Nat) (d : α) (h : i < l.length) :
    l.set i (l.getD i d) = l := by
  induction l generalizing i with
  | nil => simp at h
  | cons a t ih =>
    cases i with
    | zero => simp [List.getD]
    | succ j =>
      simp only [List.length_cons, Nat.succ_lt_succ_iff] at h
      show a :: t.set j ((a :: t).getD (j + 1) d) = a :: t
      rw [List.getD_cons_succ, ih j h]

theorem getD_append_left {α : Type} (l l' : List α) (i : Nat) (d : α) (h : i < l.length) :
    (l ++ l').getD i d = l.getD i d := by
  rw [List.getD_eq_getElem?_getD, List.getElem?_append_left h, ← List.getD_eq_getElem?_getD]

theorem getD_append_last {α : Type} (l : List α) (a d : α) :
    (l ++ [a]).getD l.length d = a := by
  rw [List.getD_eq_getElem?_getD]
  have : (l ++ [a])[l.length]? = some a := by
    rw [List.getElem?_append_right (Nat.le_refl _)]
    simp
  rw [this]
  rfl

theorem getD_eraseIdx {α : Type} (l : List α) (i j : Nat) (d : α) :
    (l.eraseIdx i).getD j d = if j < i then l.getD j d else l.getD (j + 1) d := by
  rw [List.getD_eq_getElem?_getD, List.getElem?_eraseIdx]
  by_cases h : j < i <;> simp [h, ← List.getD_eq_getElem?_getD]

/-! ### `jsFindIndex` -/

theorem jsFindIndex_cons (a : Descriptor) (t : List Descriptor) (nm : String) :
    jsFindIndex (a :: t) nm =
      if a.name = nm then 0
      else if jsFindIndex t nm < 0 then -1 else jsFindIndex t nm + 1 := rfl

theorem jsFindIndex_cases (l : List Descriptor) (nm : String) :
    jsFindIndex l nm = -1 ∨ 0 ≤ jsFindIndex l nm := by
  induction l with
  | nil => left; rfl
  | cons a t ih =>
    rw [jsFindIndex_cons]
    by_cases h : a.name = nm
    · right; simp [h]
    · rcases ih with h1 | h1
      · left; rw [if_neg h, if_pos (by omega)]
      · right; rw [if_neg h, if_neg (by omega)]; omega

theorem jsFindIndex_neg_iff (l : List Descriptor) (nm : String) :
    jsFindIndex l nm < 0 ↔ ∀ d ∈ l, d.name ≠ nm := by
  induction l with
  | nil => simp [jsFindIndex]
  | cons a t ih =>
    rw [jsFindIndex_cons]
    by_cases h : a.name = nm
    · simp [h]
    · rcases jsFindIndex_cases t nm with h1 | h1
      · have ht := ih.mp (by omega)
        rw [if_neg h, if_pos (by omega)]
        constructor
        · intro _ d hd
          rcases List.mem_cons.mp hd with rfl | hmem
          · exact h
          · exact ht d hmem
        · intro _; omega
      · have hnot : ¬ (∀ d ∈ t, d.name ≠ nm) := fun hc => by
          have := ih.mpr hc; omega
        rw [if_neg h, if_neg (by omega)]
        constructor
        · intro hc; omega
        · intro hall
          exact absurd (fun d hd => hall d (List.mem_cons_of_mem a hd)) hnot

theorem jsFindIndex_found (l : List Descriptor) (nm : String) (h : 0 ≤ jsFindIndex l nm) :
    (jsFindIndex l nm).toNat < l.length ∧
    ∀ d, (l.getD (jsFindIndex l nm).toNat d).name = nm := by
  induction l with
  | nil => simp [jsFindIndex] at h
  | cons a t ih =>
    by_cases ha : a.name = nm
    · simp [jsFindIndex, ha, List.getD]
    · rcases jsFindIndex_cases t nm with h1 | h1
      · simp [jsFindIndex, ha, h1] at h
      · have hneg : ¬ jsFindIndex t nm < 0 := by omega
        have ht := ih h1
        simp only [jsFindIndex, ha, if_false, hneg, if_false]
        have htn : (jsFindIndex t nm + 1).toNat = (jsFindIndex t nm).toNat + 1 := by omega
        rw [htn]
        refine ⟨by simp; omega, ?_⟩
        intro d
        simpa [List.getD_cons_succ] using ht.2 d

theorem jsFindIndex_first (l : List Descriptor) (nm : String) (h : 0 ≤ jsFindIndex l nm) :
    ∀ j, j < (jsFindIndex l nm).toNat → ∀ d, (l.getD j d).name ≠ nm := by
  induction l with
  | nil => simp [jsFindIndex] at h
  | cons a t ih =>
    by_cases ha : a.name = nm
    · simp [jsFindIndex, ha]
    · rcases jsFindIndex_cases t nm with h1 | h1
      · simp [jsFindIndex, ha, h1] at h
      · have hneg : ¬ jsFindIndex t nm < 0 := by omega
        simp only [jsFindIndex, ha, if_false, hneg, if_false]
        have htn : (jsFindIndex t nm + 1).toNat = (jsFindIndex t nm).toNat + 1 := by omega
        rw [htn]
        intro j hj d
        cases j with
        | zero => simpa [List.getD] using ha
        | succ k =>
          simp only [List.getD_cons_succ]
          exact ih h1 k (by omega) d

/-! ### Descriptor eta -/

theorem set_timerId_none_eq (d : Descriptor) (h : d.timerId = none) :
    { d with timerId := none } = d := by
  cases d; simp_all

/-! ### Field-level facts about the private helpers -/

theorem stopTimer_logData (m : Sys) (d : Descriptor) :
    (m._stopTimer d).logData = m.logData := by
  unfold Sys._stopTimer; split <;> rfl

theorem stopTimer_timers (m : Sys) (d : Descriptor) :
    (m._stopTimer d).timers = m.timers := by
  unfold Sys._stopTimer; split <;> rfl

theorem stopTimer_allStarted (m : Sys) (d : Descriptor) :
    (m._stopTimer d).allStarted = m.allStarted := by
  unfold Sys._stopTimer; split <;> rfl

theorem stopTimer_nextId (m : Sys) (d : Descriptor) :
    (m._stopTimer d).nextId = m.nextId := by
  unfold Sys._stopTimer; split <;> rfl

theorem stopTimer_pending_sub (m : Sys) (d : Descriptor) :
    ∀ pt ∈ (m._stopTimer d).pending, pt ∈ m.pending := by
  unfold Sys._stopTimer
  split
  · exact fun pt h => h
  · exact fun pt h => (List.mem_filter.mp h).1

theorem stopTimer_pending_cleared (m : Sys) (d : Descriptor) (id : Nat)
    (h : d.timerId = some id) :
    ∀ pt ∈ (m._stopTimer d).pending, pt.id ≠ id := by
  unfold Sys._stopTimer
  rw [h]
  intro pt hpt
  have := (List.mem_filter.mp hpt).2
  simpa using this

theorem startTimer_logData (m : Sys) (d : Descriptor) :
    (m._startTimer d).2.logData = m.logData := by
  unfold Sys._startTimer; split <;> rfl

theorem startTimer_timers (m : Sys) (d : Descriptor) :
    (m._startTimer d).2.timers = m.timers := by
  unfold Sys._startTimer; split <;> rfl

theorem startTimer_allStarted (m : Sys) (d : Descriptor) :
    (m._startTimer d).2.allStarted = m.allStarted := by
  unfold Sys._startTimer; split <;> rfl

theorem startTimer_armed (m : Sys) (d : Descriptor) (h : d.timerId = none) :
    m._startTimer d =
      (some m.nextId,
       { m with pending := m.pending ++ [mkPending d m.nextId], nextId := m.nextId + 1 }) := by
  unfold Sys._startTimer; rw [h]

theorem startTimer_skip (m : Sys) (d : Descriptor) (id : Nat) (h : d.timerId = some id) :
    m._startTimer d = (none, m) := by
  unfold Sys._startTimer; rw [h]

/-! ### Equations for `pause`, `resume`, `remove`, `add` -/

theorem pause_invalid (m : Sys) (nm : JSProp) (h : asValidName nm = none) :
    m.pause nm = (Except.error (jsTypeError "Timer name must be string type!"), m) := by
  simp [Sys.pause, Sys._findTimerIndex, h]

theorem pause_fst (m : Sys) (nm : JSProp) (s : String) (h : asValidName nm = some s) :
    (m.pause nm).1 = Except.ok (jsFindIndex m.timers s) := by
  simp only [Sys.pause, Sys._findTimerIndex, h]
  split <;> rfl

theorem pause_notfound (m : Sys) (nm : JSProp) (s : String) (h : asValidName nm = some s)
    (hneg : jsFindIndex m.timers s < 0) :
    m.pause nm = (Except.ok (jsFindIndex m.timers s), m) := by
  simp only [Sys.pause, Sys._findTimerIndex, h]
  rw [if_neg (by omega : ¬ 0 ≤ jsFindIndex m.timers s)]

theorem pause_found (m : Sys) (nm : JSProp) (s : String) (h : asValidName nm = some s)
    (hpos : 0 ≤ jsFindIndex m.timers s) :
    m.pause nm =
      (Except.ok (jsFindIndex m.timers s),
       { m._stopTimer (m.timers.getD (jsFindIndex m.timers s).toNat defaultDescriptor) with
         timers := m.timers.set (jsFindIndex m.timers s).toNat
           { m.timers.getD (jsFindIndex m.timers s).toNat defaultDescriptor with
             timerId := none } }) := by
  simp only [Sys.pause, Sys._findTimerIndex, h]
  rw [if_pos hpos]
  rw [stopTimer_timers]

theorem resume_invalid (m : Sys) (nm : JSProp) (h : asValidName nm = none) :
    m.resume nm = (Except.error (jsTypeError "Timer name must be string type!"), m) := by
  simp [Sys.resume, Sys._findTimerIndex, h]

theorem resume_fst (m : Sys) (nm : JSProp) (s : String) (h : asValidName nm = some s) :
    (m.resume nm).1 = Except.ok (jsFindIndex m.timers s) := by
  simp only [Sys.resume, Sys._findTimerIndex, h]
  split <;> rfl

theorem resume_notfound (m : Sys) (nm : JSProp) (s : String) (h : asValidName nm = some s)
    (hneg : jsFindIndex m.timers s < 0) :
    m.resume nm = (Except.ok (jsFindIndex m.timers s), m) := by
  simp only [Sys.resume, Sys._findTimerIndex, h]
  rw [if_neg (by omega : ¬ 0 ≤ jsFindIndex m.timers s)]

theorem resume_found (m : Sys) (nm : JSProp) (s : String) (h : asValidName nm = some s)
    (hpos : 0 ≤ jsFindIndex m.timers s) :
    m.resume nm =
      (Except.ok (jsFindIndex m.timers s),
       { (m._startTimer (m.timers.getD (jsFindIndex m.timers s).toNat defaultDescriptor)).2 with
         timers := m.timers.set (jsFindIndex m.timers s).toNat
           { m.timers.getD (jsFindIndex m.timers s).toNat defaultDescriptor with
             timerId := (m._startTimer (m.timers.getD (jsFindIndex m.timers s).toNat defaultDescriptor)).1 } }) := by
  simp only [Sys.resume, Sys._findTimerIndex, h]
  rw [if_pos hpos]
  rw [startTimer_timers]

theorem remove_eq_pause_then_delete (m : Sys) (nm : JSProp) :
    m.remove nm =
      match m.pause nm with
      | (Except.error e, m1) => (Except.error e, m1)
      | (Except.ok idx, m1) =>
          if 0 ≤ idx then (Except.ok (), { m1 with timers := m1.timers.eraseIdx idx.toNat })
          else (Except.ok (), m1) := rfl

theorem add_err_started (m : Sys) (raw : RawDescriptor) (ps : List JSVal)
    (h : m.allStarted = true) :
    m.add raw ps = (Except.error (jsError "Can not add new timer after start!"), m) := by
  simp [Sys.add, h]

theorem add_err_badname (m : Sys) (raw : RawDescriptor) (ps : List JSVal)
    (hstart : m.allStarted = false) (hname : asValidName raw.name = none) :
    m.add raw ps = (Except.error (jsTypeError "Timer name must be string type!"), m) := by
  simp [Sys.add, hstart, hname]

theorem add_err_dup (m : Sys) (raw : RawDescriptor) (ps : List JSVal) (s : String)
    (hstart : m.allStarted = false) (hname : asValidName raw.name = some s)
    (hdup : 0 ≤ jsFindIndex m.timers s) :
    m.add raw ps = (Except.error (jsError ("Timer \"" ++ s ++ "\" already exists!")), m) := by
  simp [Sys.add, hstart, hname, hdup]

theorem add_err_delay_type (m : Sys) (raw : RawDescriptor) (ps : List JSVal) (s : String)
    (hstart : m.allStarted = false) (hname : asValidName raw.name = some s)
    (hfresh : jsFindIndex m.timers s < 0)
    (hd : ∀ n, raw.delay ≠ JSProp.prim (JSVal.vnum n)) :
    m.add raw ps = (Except.error (jsTypeError "Timer delay must be numeric type!"), m) := by
  simp only [Sys.add, hstart, hname, Bool.false_eq_true, if_false,
    if_neg (by omega : ¬ 0 ≤ jsFindIndex m.timers s)]

theorem add_err_range (m : Sys) (raw : RawDescriptor) (ps : List JSVal) (s : String)
    (delay : JSNum)
    (hstart : m.allStarted = false) (hname : asValidName raw.name = some s)
    (hfresh : jsFindIndex m.timers s < 0)
    (hdelay : raw.delay = JSProp.prim (JSVal.vnum delay))
    (hout : (jsNumLt delay (JSNum.int 0) || jsNumLt (JSNum.int 5000) delay) = true) :
    m.add raw ps = (Except.error (jsRangeError "Timer delay must be in range [0..5000]!"), m) := by
  simp only [Sys.add, hstart, hname, hdelay, Bool.false_eq_true, if_false,
    if_neg (by omega : ¬ 0 ≤ jsFindIndex m.timers s), hout, if_true]

theorem add_ok (m : Sys) (raw : RawDescriptor) (ps : List JSVal) (s : String) (delay : JSNum)
    (interval : Bool) (job : Job)
    (hstart : m.allStarted = false)
    (hname : asValidName raw.name = some s)
    (hfresh : jsFindIndex m.timers s < 0)
    (hdelay : raw.delay = JSProp.prim (JSVal.vnum delay))
    (hrange : (jsNumLt delay (JSNum.int 0) || jsNumLt (JSNum.int 5000) delay) = false)
    (hint : raw.interval = JSProp.prim (JSVal.vbool interval))
    (hjob : raw.job = JSProp.fn job) :
    m.add raw ps = (Except.ok (),
      { m with timers := m.timers ++
          [{ name := s, delay := delay, interval := interval, job := job,
             callbackParams := ps, timerId := none }] }) := by
  simp only [Sys.add, hstart, hname, hdelay, hint, hjob, Bool.false_eq_true, if_false,
    if_neg (by omega : ¬ 0 ≤ jsFindIndex m.timers s), hrange]

theorem add_err_interval_type (m : Sys) (raw : RawDescriptor) (ps : List JSVal) (s : String)
    (delay : JSNum)
    (hstart : m.allStarted = false) (hname : asValidName raw.name = some s)
    (hfresh : jsFindIndex m.timers s < 0)
    (hdelay : raw.delay = JSProp.prim (JSVal.vnum delay))
    (hrange : (jsNumLt delay (JSNum.int 0) || jsNumLt (JSNum.int 5000) delay) = false)
    (hi : ∀ b, raw.interval ≠ JSProp.prim (JSVal.vbool b)) :
    m.add raw ps = (Except.error (jsTypeError "Timer interval must be boolean type!"), m) := by
  simp only [Sys.add, hstart, hname, hdelay, Bool.false_eq_true, if_false,
    if_neg (by omega : ¬ 0 ≤ jsFindIndex m.timers s), hrange]

theorem add_err_job_type (m : Sys) (raw : RawDescriptor) (ps : List JSVal) (s : String)
    (delay : JSNum) (interval : Bool)
    (hstart : m.allStarted = false) (hname : asValidName raw.name = some s)
    (hfresh : jsFindIndex m.timers s < 0)
    (hdelay : raw.delay = JSProp.prim (JSVal.vnum delay))
    (hrange : (jsNumLt delay (JSNum.int 0) || jsNumLt (JSNum.int 5000) delay) = false)
    (hint : raw.interval = JSProp.prim (JSVal.vbool interval))
    (hj : ∀ f, raw.job ≠ JSProp.fn f) :
    m.add raw ps = (Except.error (jsTypeError "Timer job must be a function!"), m) := by
  simp only [Sys.add, hstart, hname, hdelay, hint, Bool.false_eq_true, if_false,
    if_neg (by omega : ¬ 0 ≤ jsFindIndex m.timers s), hrange]

theorem add_snd (m : Sys) (raw : RawDescriptor) (ps : List JSVal) :
    (m.add raw ps).2 = m ∨
    ((m.add raw ps).1 = Except.ok () ∧ ∃ s delay interval job,
      (∀ d ∈ m.timers, d.name ≠ s) ∧
      (m.add raw ps).2 = { m with timers := m.timers ++
        [{ name := s, delay := delay, interval := interval, job := job,
           callbackParams := ps, timerId := none }] }) := by
  by_cases h1 : m.allStarted = true
  · left; rw [add_err_started m raw ps h1]
  · have h1f : m.allStarted = false := by simpa using h1
    rcases hn : asValidName raw.name with _ | s
    · left; rw [add_err_badname m raw ps h1f hn]
    · by_cases h2 : 0 ≤ jsFindIndex m.timers s
      · left; rw [add_err_dup m raw ps s h1f hn h2]
      · have hfr : jsFindIndex m.timers s < 0 := by omega
        by_cases h3 : ∃ delay, raw.delay = JSProp.prim (JSVal.vnum delay)
        · obtain ⟨delay, hdelay⟩ := h3
          by_cases h4 : (jsNumLt delay (JSNum.int 0) || jsNumLt (JSNum.int 5000) delay) = true
          · left; rw [add_err_range m raw ps s delay h1f hn hfr hdelay h4]
          · have h4f : (jsNumLt delay (JSNum.int 0) || jsNumLt (JSNum.int 5000) delay)
                = false := by
              simpa using h4
            by_cases h5 : ∃ b, raw.interval = JSProp.prim (JSVal.vbool b)
            · obtain ⟨b, hb⟩ := h5
              by_cases h6 : ∃ f, raw.job = JSProp.fn f
              · obtain ⟨f, hf⟩ := h6
                right
                rw [add_ok m raw ps s delay b f h1f hn hfr hdelay h4f hb hf]
                exact ⟨rfl, s, delay, b, f, (jsFindIndex_neg_iff _ _).mp hfr, rfl⟩
              · left
                push_neg at h6
                rw [add_err_job_type m raw ps s delay b h1f hn hfr hdelay h4f hb h6]
            · left
              push_neg at h5
              rw [add_err_interval_type m raw ps s delay h1f hn hfr hdelay h4f h5]
        · left
          push_neg at h3
          rw [add_err_delay_type m raw ps s h1f hn hfr h3]

/-! ### No operation but a firing touches the log -/

theorem add_logData (m : Sys) (raw : RawDescriptor) (ps : List JSVal) :
    (m.add raw ps).2.logData = m.logData := by
  rcases add_snd m raw ps with h | ⟨_, s, delay, interval, job, _, h⟩ <;> rw [h]

theorem pause_logData (m : Sys) (nm : JSProp) :
    (m.pause nm).2.logData = m.logData := by
  rcases h : asValidName nm with _ | s
  · rw [pause_invalid m nm h]
  · rcases jsFindIndex_cases m.timers s with h1 | h1
    · rw [pause_notfound m nm s h (by omega)]
    · rw [pause_found m nm s h h1]
      exact stopTimer_logData m _

theorem resume_logData (m : Sys) (nm : JSProp) :
    (m.resume nm).2.logData = m.logData := by
  rcases h : asValidName nm with _ | s
  · rw [resume_invalid m nm h]
  · rcases jsFindIndex_cases m.timers s with h1 | h1
    · rw [resume_notfound m nm s h (by omega)]
    · rw [resume_found m nm s h h1]
      exact startTimer_logData m _

theorem remove_logData (m : Sys) (nm : JSProp) :
    (m.remove nm).2.logData = m.logData := by
  have hp := pause_logData m nm
  rw [remove_eq_pause_then_delete]
  rcases hpp : m.pause nm with ⟨r, m1⟩
  rw [hpp] at hp
  cases r with
  | error e => exact hp
  | ok idx =>
    by_cases h1 : 0 ≤ idx
    · simp only [h1, if_pos]; exact hp
    · simp only [h1, if_false]; exact hp

theorem startStep_logData (m : Sys) (i : Nat) :
    (startStep m i).logData = m.logData := by
  unfold startStep
  exact startTimer_logData m _

theorem startLoop_logData (n : Nat) : ∀ (m : Sys) (i : Nat),
    (startLoop m i n).logData = m.logData := by
  induction n with
  | zero => intro m i; rfl
  | succ k ih =>
    intro m i
    show (startLoop (startStep m i) (i + 1) k).logData = m.logData
    rw [ih (startStep m i) (i + 1), startStep_logData]

theorem start_logData (m : Sys) : m.start.logData = m.logData := by
  unfold Sys.start
  by_cases h : m.allStarted = true
  · simp [h]
  · simp only [h, if_false]
    exact startLoop_logData m.timers.length m 0

theorem stopStep_logData (m : Sys) (i : Nat) :
    (stopStep m i).logData = m.logData := by
  unfold stopStep
  exact stopTimer_logData m _

theorem stopLoop_logData (n : Nat) : ∀ (m : Sys) (i : Nat),
    (stopLoop m i n).logData = m.logData := by
  induction n with
  | zero => intro m i; rfl
  | succ k ih =>
    intro m i
    show (stopLoop (stopStep m i) (i + 1) k).logData = m.logData
    rw [ih (stopStep m i) (i + 1), stopStep_logData]

theorem stop_logData (m : Sys) : m.stop.logData = m.logData := by
  unfold Sys.stop
  by_cases h : m.allStarted = true
  · simp only [h, if_pos]
    exact stopLoop_logData m.timers.length m 0
  · simp [h]

/-! ### Firing appends exactly one entry -/

theorem safeJob_logData (m : Sys) (dname : String) (dparams : List JSVal) (djob : Job) :
    (safeJob m dname dparams djob).logData = m.logData ++
      [match djob dparams with
       | Except.ok result =>
           { name := dname, inp := dparams, out := result,
             created := m.logData.length, error := none }
       | Except.error e =>
           { name := dname, inp := dparams, out := JSVal.vnull,
             created := m.logData.length,
             error := some { name := e.name, message := e.message, stack := e.stack } }] := by
  unfold safeJob
  rcases h : djob dparams with e | r <;> simp [Sys._log, h, Option.map]

theorem fire_notfound (m : Sys) (id : Nat)
    (h : m.pending.find? (fun pt => pt.id == id) = none) : m.fire id = m := by
  unfold Sys.fire
  rw [h]

theorem fire_found (m : Sys) (id : Nat) (pt : PendingTimer)
    (h : m.pending.find? (fun pt => pt.id == id) = some pt) :
    m.fire id =
      safeJob
        (if pt.interval then m
         else { m with pending := m.pending.filter (fun q => q.id ≠ id) })
        pt.dname pt.dparams pt.djob := by
  unfold Sys.fire
  rw [h]

theorem fire_logData (m : Sys) (id : Nat) :
    ∃ t, (m.fire id).logData = m.logData ++ t := by
  rcases h : m.pending.find? (fun pt => pt.id == id) with _ | pt
  · exact ⟨[], by rw [fire_notfound m id h]; simp⟩
  · rw [fire_found m id pt h]
    by_cases hi : pt.interval = true
    · rw [if_pos hi]
      exact ⟨_, safeJob_logData m pt.dname pt.dparams pt.djob⟩
    · rw [if_neg hi]
      exact ⟨_, safeJob_logData _ pt.dname pt.dparams pt.djob⟩

/-! ### More structural helpers -/

theorem stopTimer_none (m : Sys) (d : Descriptor) (h : d.timerId = none) :
    m._stopTimer d = m := by
  unfold Sys._stopTimer; rw [h]

theorem safeJob_timers (m : Sys) (dname : String) (dparams : List JSVal) (djob : Job) :
    (safeJob m dname dparams djob).timers = m.timers := by
  unfold safeJob; split <;> rfl

theorem safeJob_pending (m : Sys) (dname : String) (dparams : List JSVal) (djob : Job) :
    (safeJob m dname dparams djob).pending = m.pending := by
  unfold safeJob; split <;> rfl

theorem safeJob_allStarted (m : Sys) (dname : String) (dparams : List JSVal) (djob : Job) :
    (safeJob m dname dparams djob).allStarted = m.allStarted := by
  unfold safeJob; split <;> rfl

theorem startStep_arms (m : Sys) (i : Nat)
    (h : (m.timers.getD i defaultDescriptor).timerId = none) :
    startStep m i = { m with
      timers := m.timers.set i
        { m.timers.getD i defaultDescriptor with timerId := some m.nextId },
      pending := m.pending ++ [mkPending (m.timers.getD i defaultDescriptor) m.nextId],
      nextId := m.nextId + 1 } := by
  simp only [startStep]
  rw [startTimer_armed m _ h]

theorem startStep_pending_mono (m : Sys) (i : Nat) :
    ∀ pt ∈ m.pending, pt ∈ (startStep m i).pending := by
  simp only [startStep, Sys._startTimer]
  split
  · exact fun pt h => h
  · intro pt h
    exact List.mem_append_left _ h

theorem startLoop_pending_mono (n : Nat) : ∀ (m : Sys) (i : Nat),
    ∀ pt ∈ m.pending, pt ∈ (startLoop m i n).pending := by
  induction n with
  | zero => exact fun m i pt h => h
  | succ k ih =>
    intro m i pt h
    exact ih (startStep m i) (i + 1) pt (startStep_pending_mono m i pt h)

theorem resume_arms (m : Sys) (nm : JSProp) (s : String) (h : asValidName nm = some s)
    (hpos : 0 ≤ jsFindIndex m.timers s)
    (hnone : (m.timers.getD (jsFindIndex m.timers s).toNat defaultDescriptor).timerId = none) :
    m.resume nm =
      (Except.ok (jsFindIndex m.timers s),
       { m with
         timers := m.timers.set (jsFindIndex m.timers s).toNat
           { m.timers.getD (jsFindIndex m.timers s).toNat defaultDescriptor with
             timerId := some m.nextId },
         pending := m.pending ++
           [mkPending (m.timers.getD (jsFindIndex m.timers s).toNat defaultDescriptor) m.nextId],
         nextId := m.nextId + 1 }) := by
  rw [resume_found m nm s h hpos, startTimer_armed m _ hnone]

theorem resume_skip (m : Sys) (nm : JSProp) (s : String) (id : Nat)
    (h : asValidName nm = some s) (hpos : 0 ≤ jsFindIndex m.timers s)
    (hsome : (m.timers.getD (jsFindIndex m.timers s).toNat defaultDescriptor).timerId = some id) :
    m.resume nm =
      (Except.ok (jsFindIndex m.timers s),
       { m with
         timers := m.timers.set (jsFindIndex m.timers s).toNat
           { m.timers.getD (jsFindIndex m.timers s).toNat defaultDescriptor with
             timerId := none } }) := by
  rw [resume_found m nm s h hpos, startTimer_skip m _ id hsome]

theorem map_eq_of_getD {α β : Type} (f : α → β) (l l' : List α) (d : α)
    (hlen : l'.length = l.length)
    (h : ∀ i, i < l.length → f (l'.getD i d) = f (l.getD i d)) :
    l'.map f = l.map f := by
  apply List.ext_getElem?
  intro i
  rw [List.getElem?_map, List.getElem?_map]
  by_cases hi : i < l.length
  · have hi' : i < l'.length := by omega
    rw [List.getElem?_eq_getElem hi, List.getElem?_eq_getElem hi']
    rw [Option.map_some', Option.map_some']
    have := h i hi
    rw [List.getD_eq_getElem l d hi, List.getD_eq_getElem l' d hi'] at this
    rw [this]
  · have hi' : ¬ i < l'.length := by omega
    rw [List.getElem?_eq_none (by omega : l.length ≤ i),
      List.getElem?_eq_none (by omega : l'.length ≤ i)]

theorem forall_name_ne_of_getD (m' m : Sys)
    (hlen : m'.timers.length = m.timers.length)
    (hget : ∀ i, i < m.timers.length →
      (m'.timers.getD i defaultDescriptor).name = (m.timers.getD i defaultDescriptor).name)
    (s : String) (h : ∀ d ∈ m.timers, d.name ≠ s) :
    ∀ d ∈ m'.timers, d.name ≠ s := by
  intro d hd
  rcases List.mem_iff_getElem.mp hd with ⟨i, hi, rfl⟩
  have hil : i < m.timers.length := by omega
  have := hget i hil
  rw [List.getD_eq_getElem _ _ hi] at this
  rw [this]
  have : m.timers.getD i defaultDescriptor ∈ m.timers := by
    rw [List.getD_eq_getElem _ _ hil]
    exact List.getElem_mem hil
  exact h _ this

/-! ### The `start` loop -/

theorem startLoop_arms (n : Nat) : ∀ (m : Sys) (i : Nat),
    i + n ≤ m.timers.length →
    (∀ j, i ≤ j → j < i + n → (m.timers.getD j defaultDescriptor).timerId = none) →
    (startLoop m i n).timers.length = m.timers.length ∧
    (startLoop m i n).allStarted = m.allStarted ∧
    (startLoop m i n).nextId = m.nextId + n ∧
    (∀ j, j < i ∨ i + n ≤ j →
      (startLoop m i n).timers.getD j defaultDescriptor = m.timers.getD j defaultDescriptor) ∧
    (∀ j, i ≤ j → j < i + n →
      (startLoop m i n).timers.getD j defaultDescriptor =
        { m.timers.getD j defaultDescriptor with timerId := some (m.nextId + (j - i)) }) ∧
    (∀ pt ∈ (startLoop m i n).pending, pt ∈ m.pending ∨
      ∃ j, i ≤ j ∧ j < i + n ∧
        pt = mkPending (m.timers.getD j defaultDescriptor) (m.nextId + (j - i))) ∧
    (∀ j, i ≤ j → j < i + n →
      mkPending (m.timers.getD j defaultDescriptor) (m.nextId + (j - i)) ∈
        (startLoop m i n).pending) := by
  induction n with
  | zero =>
    intro m i hlen hnone
    exact ⟨rfl, rfl, rfl, fun j _ => rfl, fun j h1 h2 => by omega,
      fun pt hpt => Or.inl hpt, fun j h1 h2 => by omega⟩
  | succ k ih =>
    intro m i hlen hnone
    have hi : i < m.timers.length := by omega
    have hdi : (m.timers.getD i defaultDescriptor).timerId = none :=
      hnone i (Nat.le_refl i) (by omega)
    have hstep := startStep_arms m i hdi
    have h1timers : (startStep m i).timers = m.timers.set i
        { m.timers.getD i defaultDescriptor with timerId := some m.nextId } := by rw [hstep]
    have h1len : (startStep m i).timers.length = m.timers.length := by
      rw [h1timers, List.length_set]
    have h1pending : (startStep m i).pending =
        m.pending ++ [mkPending (m.timers.getD i defaultDescriptor) m.nextId] := by rw [hstep]
    have h1next : (startStep m i).nextId = m.nextId + 1 := by rw [hstep]
    have h1started : (startStep m i).allStarted = m.allStarted := by rw [hstep]
    have h1get_ne : ∀ j, j ≠ i →
        (startStep m i).timers.getD j defaultDescriptor = m.timers.getD j defaultDescriptor := by
      intro j hj
      rw [h1timers]
      exact getD_set_ne _ _ _ (fun hc => hj hc.symm)
    have h1get_i : (startStep m i).timers.getD i defaultDescriptor =
        { m.timers.getD i defaultDescriptor with timerId := some m.nextId } := by
      rw [h1timers]; exact getD_set_self _ _ _ _ hi
    have hpre : ∀ j, i + 1 ≤ j → j < (i + 1) + k →
        ((startStep m i).timers.getD j defaultDescriptor).timerId = none := by
      intro j hj1 hj2
      rw [h1get_ne j (by omega)]
      exact hnone j (by omega) (by omega)
    have hlen1 : (i + 1) + k ≤ (startStep m i).timers.length := by omega
    obtain ⟨glen, gstarted, gnext, gout, gin, gpend, gmem⟩ := ih (startStep m i) (i + 1) hlen1 hpre
    have hloop : startLoop m i (k + 1) = startLoop (startStep m i) (i + 1) k := rfl
    rw [hloop]
    refine ⟨glen.trans h1len, gstarted.trans h1started, ?_, ?_, ?_, ?_, ?_⟩
    · rw [gnext, h1next]; omega
    · intro j hj
      rw [gout j (by omega), h1get_ne j (by omega)]
    · intro j hj1 hj2
      by_cases hji : j = i
      · subst hji
        rw [gout j (Or.inl (by omega)), h1get_i, Nat.sub_self, Nat.add_zero]
      · have harith : (startStep m i).nextId + (j - (i + 1)) = m.nextId + (j - i) := by
          rw [h1next]; omega
        rw [gin j (by omega) (by omega), h1get_ne j hji, harith]
    · intro pt hpt
      rcases gpend pt hpt with hold | ⟨j, hj1, hj2, heq⟩
      · rw [h1pending] at hold
        rcases List.mem_append.mp hold with hmp | hnew
        · exact Or.inl hmp
        · right
          refine ⟨i, Nat.le_refl i, by omega, ?_⟩
          rw [Nat.sub_self, Nat.add_zero]
          exact List.mem_singleton.mp hnew
      · right
        refine ⟨j, by omega, by omega, ?_⟩
        rw [heq, h1get_ne j (by omega), h1next]
        have harith : m.nextId + 1 + (j - (i + 1)) = m.nextId + (j - i) := by omega
        rw [harith]
    · intro j hj1 hj2
      by_cases hji : j = i
      · subst hji
        rw [Nat.sub_self, Nat.add_zero]
        apply startLoop_pending_mono k (startStep m j) (j + 1)
        rw [h1pending]
        exact List.mem_append_right _ (List.mem_singleton.mpr rfl)
      · have harith : (startStep m i).nextId + (j - (i + 1)) = m.nextId + (j - i) := by
          rw [h1next]; omega
        have := gmem j (by omega) (by omega)
        rw [h1get_ne j hji, harith] at this
        exact this

/-! ### The `stop` loop -/

theorem stopStep_eq (m : Sys) (i : Nat) :
    stopStep m i = { m._stopTimer (m.timers.getD i defaultDescriptor) with
      timers := m.timers.set i
        { m.timers.getD i defaultDescriptor with timerId := none } } := by
  simp only [stopStep]
  rw [stopTimer_timers]

theorem stopStep_pending (m : Sys) (i : Nat) :
    ∀ pt ∈ (stopStep m i).pending, pt ∈ m.pending ∧
      (m.timers.getD i defaultDescriptor).timerId ≠ some pt.id := by
  intro pt hpt
  have hpend : (stopStep m i).pending =
      (m._stopTimer (m.timers.getD i defaultDescriptor)).pending := by
    rw [stopStep_eq]
  rw [hpend] at hpt
  refine ⟨stopTimer_pending_sub m _ pt hpt, ?_⟩
  rcases hd : (m.timers.getD i defaultDescriptor).timerId with _ | x
  · simp
  · have hne := stopTimer_pending_cleared m _ x hd pt hpt
    intro hc
    injection hc with hxx
    exact hne hxx.symm

theorem stopLoop_clears (n : Nat) : ∀ (m : Sys) (i : Nat),
    i + n ≤ m.timers.length →
    (stopLoop m i n).timers.length = m.timers.length ∧
    (stopLoop m i n).allStarted = m.allStarted ∧
    (stopLoop m i n).nextId = m.nextId ∧
    (∀ j, j < i ∨ i + n ≤ j →
      (stopLoop m i n).timers.getD j defaultDescriptor = m.timers.getD j defaultDescriptor) ∧
    (∀ j, i ≤ j → j < i + n →
      (stopLoop m i n).timers.getD j defaultDescriptor =
        { m.timers.getD j defaultDescriptor with timerId := none }) ∧
    (∀ pt ∈ (stopLoop m i n).pending, pt ∈ m.pending ∧
      ∀ j, i ≤ j → j < i + n →
        (m.timers.getD j defaultDescriptor).timerId ≠ some pt.id) := by
  induction n with
  | zero =>
    intro m i hlen
    exact ⟨rfl, rfl, rfl, fun j _ => rfl, fun j h1 h2 => by omega,
      fun pt hpt => ⟨hpt, fun j h1 h2 => by omega⟩⟩
  | succ k ih =>
    intro m i hlen
    have hi : i < m.timers.length := by omega
    have hstep := stopStep_eq m i
    have h1timers : (stopStep m i).timers = m.timers.set i
        { m.timers.getD i defaultDescriptor with timerId := none } := by
      rw [hstep]
    have h1len : (stopStep m i).timers.length = m.timers.length := by
      rw [h1timers, List.length_set]
    have h1started : (stopStep m i).allStarted = m.allStarted := by
      rw [hstep]; exact stopTimer_allStarted m _
    have h1next : (stopStep m i).nextId = m.nextId := by
      rw [hstep]; exact stopTimer_nextId m _
    have h1get_ne : ∀ j, j ≠ i →
        (stopStep m i).timers.getD j defaultDescriptor = m.timers.getD j defaultDescriptor := by
      intro j hj
      rw [h1timers]
      exact getD_set_ne _ _ _ (fun hc => hj hc.symm)
    have h1get_i : (stopStep m i).timers.getD i defaultDescriptor =
        { m.timers.getD i defaultDescriptor with timerId := none } := by
      rw [h1timers]; exact getD_set_self _ _ _ _ hi
    have hlen1 : (i + 1) + k ≤ (stopStep m i).timers.length := by omega
    obtain ⟨glen, gstarted, gnext, gout, gin, gpend⟩ := ih (stopStep m i) (i + 1) hlen1
    have hloop : stopLoop m i (k + 1) = stopLoop (stopStep m i) (i + 1) k := rfl
    rw [hloop]
    refine ⟨glen.trans h1len, gstarted.trans h1started, gnext.trans h1next, ?_, ?_, ?_⟩
    · intro j hj
      rw [gout j (by omega), h1get_ne j (by omega)]
    · intro j hj1 hj2
      by_cases hji : j = i
      · subst hji
        rw [gout j (Or.inl (by omega)), h1get_i]
      · rw [gin j (by omega) (by omega), h1get_ne j hji]
    · intro pt hpt
      obtain ⟨hmem1, hid1⟩ := gpend pt hpt
      obtain ⟨hmem0, hid0⟩ := stopStep_pending m i pt hmem1
      refine ⟨hmem0, ?_⟩
      intro j hj1 hj2
      by_cases hji : j = i
      · subst hji; exact hid0
      · have := hid1 j (by omega) (by omega)
        rw [h1get_ne j hji] at this
        exact this

theorem stop_clears (m : Sys) (h : m.allStarted = true) :
    m.stop.timers.length = m.timers.length ∧
    m.stop.allStarted = false ∧
    m.stop.nextId = m.nextId ∧
    (∀ j, j < m.timers.length →
      m.stop.timers.getD j defaultDescriptor =
        { m.timers.getD j defaultDescriptor with timerId := none }) ∧
    (∀ pt ∈ m.stop.pending, pt ∈ m.pending ∧
      ∀ j, j < m.timers.length →
        (m.timers.getD j defaultDescriptor).timerId ≠ some pt.id) := by
  obtain ⟨glen, gstarted, gnext, gout, gin, gpend⟩ :=
    stopLoop_clears m.timers.length m 0 (by omega)
  have hstop : m.stop = { stopLoop m 0 m.timers.length with allStarted := false } := by
    simp [Sys.stop, h]
  rw [hstop]
  refine ⟨glen, rfl, gnext, ?_, ?_⟩
  · intro j hj
    exact gin j (by omega) (by omega)
  · intro pt hpt
    obtain ⟨h1, h2⟩ := gpend pt hpt
    exact ⟨h1, fun j hj => h2 j (by omega) (by omega)⟩

theorem stop_id (m : Sys) (h : m.allStarted = false) :
    m.stop = { m with allStarted := false } := by
  simp [Sys.stop, h]

/-! ### `start` arms everything when nothing is armed -/

theorem start_id (m : Sys) (h : m.allStarted = true) :
    m.start = m := by
  have : m.start = { m with allStarted := true } := by simp [Sys.start, h]
  rw [this, ← h]

theorem start_arms_all (m : Sys) (hns : m.allStarted = false)
    (hnone : ∀ i, i < m.timers.length →
      (m.timers.getD i defaultDescriptor).timerId = none) :
    m.start.allStarted = true ∧
    m.start.timers.length = m.timers.length ∧
    m.start.nextId = m.nextId + m.timers.length ∧
    (∀ j, j < m.timers.length →
      m.start.timers.getD j defaultDescriptor =
        { m.timers.getD j defaultDescriptor with timerId := some (m.nextId + j) }) ∧
    (∀ pt ∈ m.start.pending, pt ∈ m.pending ∨
      ∃ j, j < m.timers.length ∧
        pt = mkPending (m.timers.getD j defaultDescriptor) (m.nextId + j)) ∧
    (∀ j, j < m.timers.length →
      mkPending (m.timers.getD j defaultDescriptor) (m.nextId + j) ∈ m.start.pending) := by
  obtain ⟨glen, gstarted, gnext, gout, gin, gpend, gmem⟩ :=
    startLoop_arms m.timers.length m 0 (by omega)
      (fun j h1 h2 => hnone j (by omega))
  have hstart : m.start = { startLoop m 0 m.timers.length with allStarted := true } := by
    simp [Sys.start, hns]
  rw [hstart]
  refine ⟨rfl, glen, gnext, ?_, ?_, ?_⟩
  · intro j hj
    have := gin j (by omega) (by omega)
    rwa [Nat.sub_zero] at this
  · intro pt hpt
    rcases gpend pt hpt with h1 | ⟨j, hj1, hj2, heq⟩
    · exact Or.inl h1
    · exact Or.inr ⟨j, by omega, by rwa [Nat.sub_zero] at heq⟩
  · intro j hj
    have := gmem j (by omega) (by omega)
    rwa [Nat.sub_zero] at this

theorem start_allArmed (m : Sys) (hns : m.allStarted = false)
    (hnone : ∀ i, i < m.timers.length →
      (m.timers.getD i defaultDescriptor).timerId = none) :
    AllArmed m.start := by
  obtain ⟨_, glen, _, gget, _, gmem⟩ := start_arms_all m hns hnone
  intro i hi
  have hil : i < m.timers.length := by omega
  refine ⟨m.nextId + i, ?_, mkPending (m.timers.getD i defaultDescriptor) (m.nextId + i),
    gmem i hil, rfl, ?_⟩
  · rw [gget i hil]
  · rw [gget i hil]
    rfl

/-! ### Preservation of the ownership invariant -/

theorem namesDistinct_of_map (mA mB : Sys)
    (hmap : mA.timers.map Descriptor.name = mB.timers.map Descriptor.name)
    (h : NamesDistinct mB) : NamesDistinct mA := by
  unfold NamesDistinct at *
  have hm : List.Pairwise (fun a b => a ≠ b) (mB.timers.map Descriptor.name) :=
    List.pairwise_map.mpr h
  rw [← hmap] at hm
  exact List.pairwise_map.mp hm

theorem sysInv_transfer (mA mB : Sys) (ht : mA.timers = mB.timers)
    (hp : ∀ q ∈ mA.pending, q ∈ mB.pending) (hinv : SysInv mB) : SysInv mA := by
  obtain ⟨hnd, hpo⟩ := hinv
  constructor
  · unfold NamesDistinct at *
    rw [ht]
    exact hnd
  · intro pt hpt
    obtain ⟨j, hj, hnm, hid⟩ := hpo pt (hp pt hpt)
    rw [← ht] at hj hnm hid
    exact ⟨j, hj, hnm, hid⟩

theorem inv_add (m : Sys) (raw : RawDescriptor) (ps : List JSVal) (hinv : SysInv m) :
    SysInv (m.add raw ps).2 := by
  rcases add_snd m raw ps with h | ⟨_, s, delay, interval, job, hfresh, h⟩
  · rwa [h]
  · rw [h]
    obtain ⟨hnd, hpo⟩ := hinv
    constructor
    · show (m.timers ++ [_]).Pairwise _
      rw [List.pairwise_append]
      refine ⟨hnd, List.pairwise_singleton _ _, ?_⟩
      intro a ha b hb
      rw [List.mem_singleton] at hb
      subst hb
      exact hfresh a ha
    · intro pt hpt
      obtain ⟨i, hi, hnm, hid⟩ := hpo pt hpt
      refine ⟨i, ?_, ?_, ?_⟩
      · show i < (m.timers ++ [_]).length
        rw [List.length_append]
        omega
      · show ((m.timers ++ [_]).getD i defaultDescriptor).name = pt.dname
        rw [getD_append_left _ _ _ _ hi]
        exact hnm
      · show ((m.timers ++ [_]).getD i defaultDescriptor).timerId = some pt.id
        rw [getD_append_left _ _ _ _ hi]
        exact hid

theorem inv_pause (m : Sys) (nm : JSProp) (hinv : SysInv m) : SysInv (m.pause nm).2 := by
  rcases hn : asValidName nm with _ | s
  · rw [pause_invalid m nm hn]; exact hinv
  · rcases jsFindIndex_cases m.timers s with h1 | h1
    · rw [pause_notfound m nm s hn (by omega)]; exact hinv
    · rw [pause_found m nm s hn h1]
      obtain ⟨hnd, hpo⟩ := hinv
      have hilen : (jsFindIndex m.timers s).toNat < m.timers.length :=
        (jsFindIndex_found m.timers s h1).1
      constructor
      · apply namesDistinct_of_map _ m ?_ hnd
        show (m.timers.set _ _).map Descriptor.name = m.timers.map Descriptor.name
        apply map_eq_of_getD _ _ _ defaultDescriptor (List.length_set _ _ _)
        intro j hj
        by_cases hji : (jsFindIndex m.timers s).toNat = j
        · subst hji
          rw [getD_set_self _ _ _ _ hilen]
        · rw [getD_set_ne _ _ _ hji]
      · intro pt hpt
        have hptm : pt ∈ m.pending :=
          stopTimer_pending_sub m _ pt hpt
        obtain ⟨j, hj, hnm, hid⟩ := hpo pt hptm
        have hji : j ≠ (jsFindIndex m.timers s).toNat := by
          intro hc
          exact (stopTimer_pending_cleared m
            (m.timers.getD (jsFindIndex m.timers s).toNat defaultDescriptor) pt.id
            (by rw [← hc]; exact hid) pt hpt) rfl
        refine ⟨j, ?_, ?_, ?_⟩
        · show j < (m.timers.set _ _).length
          rw [List.length_set]
          exact hj
        · show ((m.timers.set _ _).getD j defaultDescriptor).name = pt.dname
          rw [getD_set_ne _ _ _ (fun hc => hji hc.symm)]
          exact hnm
        · show ((m.timers.set _ _).getD j defaultDescriptor).timerId = some pt.id
          rw [getD_set_ne _ _ _ (fun hc => hji hc.symm)]
          exact hid

theorem inv_eraseIdx (m : Sys) (i : Nat) (hlen : i < m.timers.length)
    (hnone : (m.timers.getD i defaultDescriptor).timerId = none)
    (hinv : SysInv m) : SysInv { m with timers := m.timers.eraseIdx i } := by
  obtain ⟨hnd, hpo⟩ := hinv
  constructor
  · show (m.timers.eraseIdx i).Pairwise _
    exact List.Pairwise.sublist (List.eraseIdx_sublist m.timers i) hnd
  · intro pt hpt
    obtain ⟨j, hj, hnm, hid⟩ := hpo pt hpt
    have hji : j ≠ i := by
      intro hc
      subst hc
      rw [hnone] at hid
      cases hid
    have hlen2 : (m.timers.eraseIdx i).length = m.timers.length - 1 := by
      rw [List.length_eraseIdx, if_pos hlen]
    by_cases hlt : j < i
    · refine ⟨j, ?_, ?_, ?_⟩
      · show j < (m.timers.eraseIdx i).length
        omega
      · show ((m.timers.eraseIdx i).getD j defaultDescriptor).name = pt.dname
        rw [getD_eraseIdx, if_pos hlt]
        exact hnm
      · show ((m.timers.eraseIdx i).getD j defaultDescriptor).timerId = some pt.id
        rw [getD_eraseIdx, if_pos hlt]
        exact hid
    · have hgt : i < j := by omega
      have harith : j - 1 + 1 = j := by omega
      refine ⟨j - 1, ?_, ?_, ?_⟩
      · show j - 1 < (m.timers.eraseIdx i).length
        omega
      · show ((m.timers.eraseIdx i).getD (j - 1) defaultDescriptor).name = pt.dname
        rw [getD_eraseIdx, if_neg (by omega), harith]
        exact hnm
      · show ((m.timers.eraseIdx i).getD (j - 1) defaultDescriptor).timerId = some pt.id
        rw [getD_eraseIdx, if_neg (by omega), harith]
        exact hid

theorem remove_invalid (m : Sys) (nm : JSProp) (h : asValidName nm = none) :
    m.remove nm = (Except.error (jsTypeError "Timer name must be string type!"), m) := by
  rw [remove_eq_pause_then_delete, pause_invalid m nm h]

theorem remove_notfound (m : Sys) (nm : JSProp) (s : String) (h : asValidName nm = some s)
    (hneg : jsFindIndex m.timers s < 0) :
    m.remove nm = (Except.ok (), m) := by
  rw [remove_eq_pause_then_delete, pause_notfound m nm s h hneg]
  simp only [if_neg (by omega : ¬ 0 ≤ jsFindIndex m.timers s)]

theorem remove_found (m : Sys) (nm : JSProp) (s : String) (h : asValidName nm = some s)
    (hpos : 0 ≤ jsFindIndex m.timers s) :
    m.remove nm = (Except.ok (),
      { m._stopTimer (m.timers.getD (jsFindIndex m.timers s).toNat defaultDescriptor) with
        timers := (m.timers.set (jsFindIndex m.timers s).toNat
          { m.timers.getD (jsFindIndex m.timers s).toNat defaultDescriptor with
            timerId := none }).eraseIdx (jsFindIndex m.timers s).toNat }) := by
  rw [remove_eq_pause_then_delete, pause_found m nm s h hpos]
  simp only [if_pos hpos]

theorem inv_remove (m : Sys) (nm : JSProp) (hinv : SysInv m) : SysInv (m.remove nm).2 := by
  rcases hn : asValidName nm with _ | s
  · rw [remove_invalid m nm hn]; exact hinv
  · rcases jsFindIndex_cases m.timers s with h1 | h1
    · rw [remove_notfound m nm s hn (by omega)]; exact hinv
    · have hpinv := inv_pause m nm hinv
      rw [pause_found m nm s hn h1] at hpinv
      have hilen : (jsFindIndex m.timers s).toNat < m.timers.length :=
        (jsFindIndex_found m.timers s h1).1
      rw [remove_found m nm s hn h1]
      have heq := inv_eraseIdx
        { m._stopTimer (m.timers.getD (jsFindIndex m.timers s).toNat defaultDescriptor) with
          timers := m.timers.set (jsFindIndex m.timers s).toNat
            { m.timers.getD (jsFindIndex m.timers s).toNat defaultDescriptor with
              timerId := none } }
        (jsFindIndex m.timers s).toNat
        (by
          show (jsFindIndex m.timers s).toNat < (m.timers.set _ _).length
          rw [List.length_set]
          exact hilen)
        (by
          show ((m.timers.set _ _).getD _ defaultDescriptor).timerId = none
          rw [getD_set_self _ _ _ _ hilen])
        hpinv
      exact heq

theorem inv_start (m : Sys)
    (hsafe : m.allStarted = true ∨
      ∀ i, i < m.timers.length → (m.timers.getD i defaultDescriptor).timerId = none)
    (hinv : SysInv m) : SysInv m.start := by
  by_cases hs : m.allStarted = true
  · rw [start_id m hs]; exact hinv
  · have hsf : m.allStarted = false := by simpa using hs
    rcases hsafe with h | h
    · exact absurd h hs
    · have hpend : m.pending = [] := by
        rw [List.eq_nil_iff_forall_not_mem]
        intro pt hpt
        obtain ⟨j, hj, hnm, hid⟩ := hinv.2 pt hpt
        rw [h j hj] at hid
        cases hid
      obtain ⟨gstarted, glen, gnext, gget, gpend, gmem⟩ := start_arms_all m hsf h
      constructor
      · apply namesDistinct_of_map _ m ?_ hinv.1
        apply map_eq_of_getD _ _ _ defaultDescriptor glen
        intro i hi
        rw [gget i hi]
      · intro pt hpt
        rcases gpend pt hpt with h1 | ⟨j, hj, rfl⟩
        · rw [hpend] at h1
          cases h1
        · refine ⟨j, by omega, ?_, ?_⟩
          · rw [gget j hj]
            rfl
          · rw [gget j hj]
            rfl

theorem inv_stop (m : Sys) (hinv : SysInv m) : SysInv m.stop := by
  by_cases h : m.allStarted = true
  · obtain ⟨glen, _, _, gget, gpend⟩ := stop_clears m h
    constructor
    · apply namesDistinct_of_map _ m ?_ hinv.1
      apply map_eq_of_getD _ _ _ defaultDescriptor glen
      intro i hi
      rw [gget i hi]
    · intro pt hpt
      obtain ⟨hmem, hforall⟩ := gpend pt hpt
      obtain ⟨j, hj, hnm, hid⟩ := hinv.2 pt hmem
      exact absurd hid (hforall j hj)
  · rw [stop_id m (by simpa using h)]
    exact sysInv_transfer _ m rfl (fun q hq => hq) hinv

theorem inv_resume (m : Sys) (nm : JSProp)
    (hsafe : ∀ s, asValidName nm = some s → 0 ≤ jsFindIndex m.timers s →
      (m.timers.getD (jsFindIndex m.timers s).toNat defaultDescriptor).timerId = none)
    (hinv : SysInv m) : SysInv (m.resume nm).2 := by
  rcases hn : asValidName nm with _ | s
  · rw [resume_invalid m nm hn]; exact hinv
  · rcases jsFindIndex_cases m.timers s with h1 | h1
    · rw [resume_notfound m nm s hn (by omega)]; exact hinv
    · have hnone := hsafe s hn h1
      rw [resume_arms m nm s hn h1 hnone]
      obtain ⟨hnd, hpo⟩ := hinv
      have hilen : (jsFindIndex m.timers s).toNat < m.timers.length :=
        (jsFindIndex_found m.timers s h1).1
      constructor
      · apply namesDistinct_of_map _ m ?_ hnd
        show (m.timers.set _ _).map Descriptor.name = m.timers.map Descriptor.name
        apply map_eq_of_getD _ _ _ defaultDescriptor (List.length_set _ _ _)
        intro j hj
        by_cases hji : (jsFindIndex m.timers s).toNat = j
        · subst hji
          rw [getD_set_self _ _ _ _ hilen]
        · rw [getD_set_ne _ _ _ hji]
      · intro pt hpt
        rcases List.mem_append.mp hpt with hold | hnew
        · obtain ⟨j, hj, hnm, hid⟩ := hpo pt hold
          have hji : j ≠ (jsFindIndex m.timers s).toNat := by
            intro hc
            rw [hc, hnone] at hid
            cases hid
          refine ⟨j, ?_, ?_, ?_⟩
          · show j < (m.timers.set _ _).length
            rw [List.length_set]
            exact hj
          · show ((m.timers.set _ _).getD j defaultDescriptor).name = pt.dname
            rw [getD_set_ne _ _ _ (fun hc => hji hc.symm)]
            exact hnm
          · show ((m.timers.set _ _).getD j defaultDescriptor).timerId = some pt.id
            rw [getD_set_ne _ _ _ (fun hc => hji hc.symm)]
            exact hid
        · rw [List.mem_singleton] at hnew
          subst hnew
          refine ⟨(jsFindIndex m.timers s).toNat, ?_, ?_, ?_⟩
          · show (jsFindIndex m.timers s).toNat < (m.timers.set _ _).length
            rw [List.length_set]
            exact hilen
          · show ((m.timers.set _ _).getD _ defaultDescriptor).name = _
            rw [getD_set_self _ _ _ _ hilen]
            rfl
          · show ((m.timers.set _ _).getD _ defaultDescriptor).timerId = _
            rw [getD_set_self _ _ _ _ hilen]
            rfl

theorem inv_fire (m : Sys) (id : Nat) (hinv : SysInv m) : SysInv (m.fire id) := by
  rcases h : m.pending.find? (fun pt => pt.id == id) with _ | pt
  · rw [fire_notfound m id h]; exact hinv
  · rw [fire_found m id pt h]
    apply sysInv_transfer _ m ?_ ?_ hinv
    · rw [safeJob_timers]
      split <;> rfl
    · intro q hq
      rw [safeJob_pending] at hq
      split at hq
      · exact hq
      · exact (List.mem_filter.mp hq).1

theorem inv_reach (m : Sys) (h : SafeReach m) : SysInv m := by
  induction h with
  | init =>
    exact ⟨List.Pairwise.nil, fun pt hpt => absurd hpt (List.not_mem_nil pt)⟩
  | step hr hs ih =>
    rename_i mr op
    cases op with
    | add raw ps => exact inv_add mr raw ps ih
    | start => exact inv_start mr hs ih
    | stop => exact inv_stop mr ih
    | pause nm => exact inv_pause mr nm ih
    | resume nm => exact inv_resume mr nm hs ih
    | remove nm => exact inv_remove mr nm ih
    | fire id => exact inv_fire mr id ih

/-! ## Claims -/

/-- C1: for every armed timer and every firing of its job by the platform,
the safe-execution wrapper appends exactly one new log entry whose name and
inputs match the descriptor's name and bound arguments; on normal return the
entry carries the job's return value and no error field, on a thrown error it
carries a null output plus the error's name, message and stack; the throw
never escapes the wrapper (`Sys.fire` is a total function into `Sys`), and a
recurring timer stays armed after a firing, failed or not. -/
theorem C1_fire_logs_exactly_one (m : Sys) (id : Nat) (pt : PendingTimer)
    (h : m.pending.find? (fun q => q.id == id) = some pt) :
    ∃ e, (m.fire id).logData = m.logData ++ [e] ∧
      e.name = pt.dname ∧ e.inp = pt.dparams ∧ e.created = m.logData.length ∧
      (∀ r, pt.djob pt.dparams = Except.ok r → e.out = r ∧ e.error = none) ∧
      (∀ err, pt.djob pt.dparams = Except.error err →
        e.out = JSVal.vnull ∧
        e.error = some { name := err.name, message := err.message, stack := err.stack }) ∧
      (pt.interval = true → pt ∈ (m.fire id).pending) := by
  rw [fire_found m id pt h]
  have hm1log : (if pt.interval = true then m
      else { m with pending := m.pending.filter (fun q => q.id ≠ id) }).logData
      = m.logData := by
    split <;> rfl
  rcases hj : pt.djob pt.dparams with err | r
  · refine ⟨{ name := pt.dname, inp := pt.dparams, out := JSVal.vnull,
              created := m.logData.length,
              error := some { name := err.name, message := err.message, stack := err.stack } },
      ?_, rfl, rfl, rfl, ?_, ?_, ?_⟩
    · unfold safeJob
      rw [hj]
      simp only [Sys._log, hm1log, Option.map_some']
    · intro r hr
      exact Except.noConfusion hr
    · intro err2 hr
      injection hr with he
      subst he
      exact ⟨rfl, rfl⟩
    · intro hi
      rw [safeJob_pending, if_pos hi]
      exact List.mem_of_find?_eq_some h
  · refine ⟨{ name := pt.dname, inp := pt.dparams, out := r,
              created := m.logData.length, error := none },
      ?_, rfl, rfl, rfl, ?_, ?_, ?_⟩
    · unfold safeJob
      rw [hj]
      simp only [Sys._log, hm1log, Option.map_none']
    · intro r2 hr
      injection hr with he
      subst he
      exact ⟨rfl, rfl⟩
    · intro err hr
      exact Except.noConfusion hr
    · intro hi
      rw [safeJob_pending, if_pos hi]
      exact List.mem_of_find?_eq_some h

/-- C1 witness: firing timer `"b"` of `sysABStarted` (recurring, its job
throws `Error("x")`) appends exactly one error entry and leaves the interval
timer armed. -/
theorem C1_witness :
    ∃ e, (sysABStarted.fire 2).logData = sysABStarted.logData ++ [e] ∧
      e.name = "b" ∧ e.inp = ([] : List JSVal) ∧ e.created = sysABStarted.logData.length ∧
      (∀ r, (Except.error { name := "Error", message := "x", stack := "s" } :
          Except JsError JSVal) = Except.ok r → e.out = r ∧ e.error = none) ∧
      (∀ err, (Except.error { name := "Error", message := "x", stack := "s" } :
          Except JsError JSVal) = Except.error err →
        e.out = JSVal.vnull ∧
        e.error = some { name := err.name, message := err.message, stack := err.stack }) ∧
      (true = true →
        ({ id := 2, interval := true, delay := JSNum.int 100, dname := "b", dparams := [],
           djob := fun _ => Except.error { name := "Error", message := "x", stack := "s" } } :
          PendingTimer) ∈ (sysABStarted.fire 2).pending) :=
  C1_fire_logs_exactly_one sysABStarted 2
    { id := 2, interval := true, delay := JSNum.int 100, dname := "b", dparams := [],
      djob := fun _ => Except.error { name := "Error", message := "x", stack := "s" } }
    (by rfl)

/-- C2: whenever `add` fails — state error, duplicate name, type error or
range error — the manager is left exactly as it was: same registry (same
descriptors, order and size) and nothing written to the log. -/
theorem C2_add_failure_frame (m : Sys) (raw : RawDescriptor) (ps : List JSVal) (e : JsError)
    (h : (m.add raw ps).1 = Except.error e) :
    (m.add raw ps).2 = m := by
  rcases add_snd m raw ps with h2 | ⟨h2, _⟩
  · exact h2
  · rw [h2] at h
    exact Except.noConfusion h

/-- C2 witness: `add` on an activated manager fails with the state error and
leaves the state untouched. -/
theorem C2_witness :
    (sysAStarted.add rawB []).2 = sysAStarted :=
  C2_add_failure_frame sysAStarted rawB []
    (jsError "Can not add new timer after start!") (by rfl)

/-- C7: the log is append-only: `add`, `start`, `stop`, `pause`, `resume`,
`remove` and `print` leave the log exactly as it was, and a platform firing
only ever appends at the end. -/
theorem C7_log_append_only (m : Sys) (raw : RawDescriptor) (ps : List JSVal)
    (nm1 nm2 nm3 : JSProp) (id : Nat) :
    (m.add raw ps).2.logData = m.logData ∧
    m.start.logData = m.logData ∧
    m.stop.logData = m.logData ∧
    (m.pause nm1).2.logData = m.logData ∧
    (m.resume nm2).2.logData = m.logData ∧
    (m.remove nm3).2.logData = m.logData ∧
    m.print = m.logData ∧
    (∃ t, (m.fire id).logData = m.logData ++ t) :=
  ⟨add_logData m raw ps, start_logData m, stop_logData m, pause_logData m nm1,
   resume_logData m nm2, remove_logData m nm3, rfl, fire_logData m id⟩

theorem forall_name_ne_of_not_mem_map (l : List Descriptor) (s : String)
    (h : s ∉ l.map Descriptor.name) : ∀ d ∈ l, d.name ≠ s := by
  intro d hd hc
  exact h (List.mem_map.mpr ⟨d, hd, hc⟩)

/-- C3: while the manager is activated, every `add` fails with the state
error, whatever the registry holds; after `stop()` resets the flag, a valid
new descriptor is accepted and a subsequent `start()` arms every registered
descriptor, old and new. -/
theorem C3_add_blocked_while_activated (m : Sys) (raw : RawDescriptor) (ps : List JSVal)
    (hact : m.allStarted = true) :
    (m.add raw ps).1 = Except.error (jsError "Can not add new timer after start!") ∧
    (∀ s delay interval job,
      asValidName raw.name = some s →
      (∀ d ∈ m.timers, d.name ≠ s) →
      raw.delay = JSProp.prim (JSVal.vnum delay) →
      (jsNumLt delay (JSNum.int 0) || jsNumLt (JSNum.int 5000) delay) = false →
      raw.interval = JSProp.prim (JSVal.vbool interval) →
      raw.job = JSProp.fn job →
      (m.stop.add raw ps).1 = Except.ok () ∧
      (m.stop.add raw ps).2.timers.length = m.timers.length + 1 ∧
      AllArmed (m.stop.add raw ps).2.start) := by
  constructor
  · rw [add_err_started m raw ps hact]
  · intro s delay interval job hname hfresh hdelay hrange hint hjob
    obtain ⟨glen, gstarted, _, gget, _⟩ := stop_clears m hact
    have hfresh2 : ∀ d ∈ m.stop.timers, d.name ≠ s := by
      apply forall_name_ne_of_getD m.stop m glen ?_ s hfresh
      intro i hi
      rw [gget i hi]
    have hfr2 : jsFindIndex m.stop.timers s < 0 := (jsFindIndex_neg_iff _ _).mpr hfresh2
    have hok := add_ok m.stop raw ps s delay interval job gstarted hname hfr2
      hdelay hrange hint hjob
    refine ⟨by rw [hok], ?_, ?_⟩
    · rw [hok]
      show (m.stop.timers ++ [_]).length = m.timers.length + 1
      rw [List.length_append, glen]
      rfl
    · rw [hok]
      apply start_allArmed
      · exact gstarted
      · intro i hi
        show ((m.stop.timers ++ [_]).getD i defaultDescriptor).timerId = none
        rw [List.length_append] at hi
        by_cases hil : i < m.stop.timers.length
        · rw [getD_append_left _ _ _ _ hil, gget i (by omega)]
        · have hieq : i = m.stop.timers.length := by
            rw [List.length_singleton] at hi
            omega
          subst hieq
          rw [getD_append_last]

/-- C3 witness: `add(t1)`; `start()`; then `stop()`; `add(t2)` succeeds and
`start()` arms both timers. -/
theorem C3_witness :
    (sysAStarted.stop.add rawB []).1 = Except.ok () ∧
    (sysAStarted.stop.add rawB []).2.timers.length = sysAStarted.timers.length + 1 ∧
    AllArmed (sysAStarted.stop.add rawB []).2.start :=
  (C3_add_blocked_while_activated sysAStarted rawB [] (by rfl)).2
    "b" (JSNum.int 100) true
    (fun _ => Except.error { name := "Error", message := "x", stack := "s" })
    (by rfl)
    (forall_name_ne_of_not_mem_map sysAStarted.timers "b"
      (by
        rw [show sysAStarted.timers.map Descriptor.name = ["a"] from rfl]
        decide))
    (by rfl) (by rfl) (by rfl) (by rfl)

/-- C4: `remove(name)` has exactly the effect of `pause(name)` followed, when
the returned index is non-negative, by deleting that descriptor; removing a
valid-typed name that is not registered changes nothing. -/
theorem C4_remove_refines_pause_delete (m : Sys) (nm : JSProp) :
    m.remove nm = removeSpec m nm ∧
    (∀ s, asValidName nm = some s → (∀ d ∈ m.timers, d.name ≠ s) →
      m.remove nm = (Except.ok (), m)) := by
  refine ⟨rfl, ?_⟩
  intro s hs hnone
  exact remove_notfound m nm s hs ((jsFindIndex_neg_iff _ _).mpr hnone)

/-- C4 witness: removing the unregistered name `"zz"` is a no-op. -/
theorem C4_witness :
    sysA.remove (JSProp.prim (JSVal.vstr "zz")) = (Except.ok (), sysA) :=
  (C4_remove_refines_pause_delete sysA (JSProp.prim (JSVal.vstr "zz"))).2 "zz" (by rfl)
    (forall_name_ne_of_not_mem_map sysA.timers "zz"
      (by
        rw [show sysA.timers.map Descriptor.name = ["a"] from rfl]
        decide))

theorem add_inrange_cases (m : Sys) (raw : RawDescriptor) (ps : List JSVal) (s : String)
    (n : JSNum)
    (hstart : m.allStarted = false) (hname : asValidName raw.name = some s)
    (hfr : jsFindIndex m.timers s < 0)
    (hdel : raw.delay = JSProp.prim (JSVal.vnum n))
    (hrange : (jsNumLt n (JSNum.int 0) || jsNumLt (JSNum.int 5000) n) = false) :
    (m.add raw ps).1 = Except.ok () ∨
    (m.add raw ps).1 = Except.error (jsTypeError "Timer interval must be boolean type!") ∨
    (m.add raw ps).1 = Except.error (jsTypeError "Timer job must be a function!") := by
  by_cases h5 : ∃ b, raw.interval = JSProp.prim (JSVal.vbool b)
  · obtain ⟨b, hb⟩ := h5
    by_cases h6 : ∃ f, raw.job = JSProp.fn f
    · obtain ⟨f, hf⟩ := h6
      left
      rw [add_ok m raw ps s n b f hstart hname hfr hdel hrange hb hf]
    · right; right
      push_neg at h6
      rw [add_err_job_type m raw ps s n b hstart hname hfr hdel hrange hb h6]
  · right; left
    push_neg at h5
    rw [add_err_interval_type m raw ps s n hstart hname hfr hdel hrange h5]

theorem jsNum_range_check (d : JSNum) :
    (jsNumLt d (JSNum.int 0) || jsNumLt (JSNum.int 5000) d) = true ↔
      ∃ n : Int, d = JSNum.int n ∧ (n < 0 ∨ 5000 < n) := by
  cases d with
  | int n =>
    constructor
    · intro h
      refine ⟨n, rfl, ?_⟩
      rcases (Bool.or_eq_true _ _).mp h with h2 | h2
      · exact Or.inl (of_decide_eq_true h2)
      · exact Or.inr (of_decide_eq_true h2)
    · rintro ⟨n2, hn, hcmp⟩
      injection hn with he
      subst he
      rw [Bool.or_eq_true]
      rcases hcmp with hc | hc
      · exact Or.inl (decide_eq_true hc)
      · exact Or.inr (decide_eq_true hc)
  | nan =>
    constructor
    · intro h
      exact absurd h (by decide)
    · rintro ⟨n, hn, _⟩
      exact JSNum.noConfusion hn

/-- C5 counterexample: `NaN` is numeric by `typeof` and lies outside the
closed interval `[0, 5000]` (it equals no integer of the interval — indeed no
integer at all), yet `NaN < 0` and `NaN > 5000` are both false, so `add`
raises no range error and accepts the descriptor: the claimed
"range error iff delay outside [0, 5000]" is false at `delay = NaN`. -/
theorem C5_counterexample :
    (¬ ∃ n : Int, JSNum.nan = JSNum.int n ∧ 0 ≤ n ∧ n ≤ 5000) ∧
    (Sys.init.add rawCnan []).1 = Except.ok () ∧
    (Sys.init.add rawCnan []).2.timers.length = 1 := by
  refine ⟨?_, rfl, rfl⟩
  rintro ⟨n, hn, _⟩
  exact JSNum.noConfusion hn

/-- C5 (amended): with the manager not activated and a fresh valid name, a
numeric `delay` makes `add` fail with the range error exactly when it is an
integer below `0` or above `5000` — `NaN`, numeric by `typeof`, makes both
comparisons false and is accepted without error; a non-numeric `delay` fails
with the type error instead; and every failing `add` leaves the registry size
unchanged. -/
theorem C5_add_delay_validation (m : Sys) (raw : RawDescriptor) (ps : List JSVal) (s : String)
    (hstart : m.allStarted = false)
    (hname : asValidName raw.name = some s)
    (hfresh : ∀ d ∈ m.timers, d.name ≠ s) :
    (∀ d, raw.delay = JSProp.prim (JSVal.vnum d) →
      ((m.add raw ps).1 =
          Except.error (jsRangeError "Timer delay must be in range [0..5000]!") ↔
        (∃ n : Int, d = JSNum.int n ∧ (n < 0 ∨ 5000 < n)))) ∧
    ((∀ d, raw.delay ≠ JSProp.prim (JSVal.vnum d)) →
      (m.add raw ps).1 = Except.error (jsTypeError "Timer delay must be numeric type!")) ∧
    (∀ e, (m.add raw ps).1 = Except.error e →
      (m.add raw ps).2.timers.length = m.timers.length) := by
  have hfr : jsFindIndex m.timers s < 0 := (jsFindIndex_neg_iff _ _).mpr hfresh
  refine ⟨?_, ?_, ?_⟩
  · intro d hdel
    rw [← jsNum_range_check d]
    constructor
    · intro hre
      by_contra hin
      have hrange : (jsNumLt d (JSNum.int 0) || jsNumLt (JSNum.int 5000) d) = false := by
        simpa using hin
      rcases add_inrange_cases m raw ps s d hstart hname hfr hdel hrange with
        hok | hti | htj
      · rw [hok] at hre
        exact Except.noConfusion hre
      · rw [hti] at hre
        injection hre with he
        exact absurd he (by decide)
      · rw [htj] at hre
        injection hre with he
        exact absurd he (by decide)
    · intro hout
      rw [add_err_range m raw ps s d hstart hname hfr hdel hout]
  · intro hnn
    rw [add_err_delay_type m raw ps s hstart hname hfr hnn]
  · intro e he
    rcases add_snd m raw ps with h2 | ⟨h2, _⟩
    · rw [h2]
    · rw [h2] at he
      exact Except.noConfusion he

/-- C5 witness: on a fresh manager, `delay = 6000` raises the range error
(registry left empty) and a string `delay` raises the type error. -/
theorem C5_witness :
    ((Sys.init.add rawC6000 []).1 =
        Except.error (jsRangeError "Timer delay must be in range [0..5000]!") ∧
      (Sys.init.add rawC6000 []).2.timers.length = Sys.init.timers.length) ∧
    (Sys.init.add rawCstr []).1 =
      Except.error (jsTypeError "Timer delay must be numeric type!") := by
  have h1 := C5_add_delay_validation Sys.init rawC6000 [] "c" (by rfl) (by rfl)
    (fun d hd => absurd hd (List.not_mem_nil d))
  have h2 := C5_add_delay_validation Sys.init rawCstr [] "c" (by rfl) (by rfl)
    (fun d hd => absurd hd (List.not_mem_nil d))
  have hre := (h1.1 (JSNum.int 6000) (by rfl)).mpr ⟨6000, rfl, by omega⟩
  exact ⟨⟨hre, h1.2.2 _ hre⟩,
    h2.2.1 (by
      intro n hc
      rw [show rawCstr.delay = JSProp.prim (JSVal.vstr "soon") from rfl] at hc
      exact JSVal.noConfusion (JSProp.prim.inj hc))⟩

/-- C6: for a non-empty string name, `pause` and `resume` both return
`Except.ok` of the `findIndex` result — the index of the named descriptor
when present (in range and bearing that name, armed or not), `-1` when absent
— and never throw; pausing a descriptor whose handle is already absent
leaves the whole state unchanged. -/
theorem C6_pause_resume_index (m : Sys) (s : String) (hs : s ≠ "") :
    (m.pause (JSProp.prim (JSVal.vstr s))).1 = Except.ok (jsFindIndex m.timers s) ∧
    (m.resume (JSProp.prim (JSVal.vstr s))).1 = Except.ok (jsFindIndex m.timers s) ∧
    ((∀ d ∈ m.timers, d.name ≠ s) → jsFindIndex m.timers s = -1) ∧
    (0 ≤ jsFindIndex m.timers s →
      (m.timers.getD (jsFindIndex m.timers s).toNat defaultDescriptor).name = s ∧
      (jsFindIndex m.timers s).toNat < m.timers.length) ∧
    ((∃ d ∈ m.timers, d.name = s) → 0 ≤ jsFindIndex m.timers s) ∧
    (0 ≤ jsFindIndex m.timers s →
      (m.timers.getD (jsFindIndex m.timers s).toNat defaultDescriptor).timerId = none →
      (m.pause (JSProp.prim (JSVal.vstr s))).2 = m) := by
  have hv : asValidName (JSProp.prim (JSVal.vstr s)) = some s := by
    simp [asValidName, hs]
  refine ⟨pause_fst m _ s hv, resume_fst m _ s hv, ?_, ?_, ?_, ?_⟩
  · intro h
    rcases jsFindIndex_cases m.timers s with h1 | h1
    · exact h1
    · have := (jsFindIndex_neg_iff m.timers s).mpr h
      omega
  · intro h1
    obtain ⟨hl, hn⟩ := jsFindIndex_found m.timers s h1
    exact ⟨hn defaultDescriptor, hl⟩
  · rintro ⟨d, hd, hnm⟩
    rcases jsFindIndex_cases m.timers s with h1 | h1
    · have := (jsFindIndex_neg_iff m.timers s).mp (by omega) d hd
      exact absurd hnm this
    · exact h1
  · intro h1 hnone
    rw [pause_found m _ s hv h1, stopTimer_none m _ hnone]
    rw [set_timerId_none_eq _ hnone,
      set_getD_eq_self _ _ _ (jsFindIndex_found m.timers s h1).1]

/-- C6 witness: on `sysA` (one registered, never-started timer `"a"`),
`pause('a')` returns index 0 and leaves the state unchanged, and both
operations return `-1` for the absent name only. -/
theorem C6_witness :
    (sysA.pause (JSProp.prim (JSVal.vstr "a"))).1 =
      Except.ok (jsFindIndex sysA.timers "a") ∧
    (sysA.pause (JSProp.prim (JSVal.vstr "a"))).2 = sysA := by
  have h := C6_pause_resume_index sysA "a" (by decide)
  exact ⟨h.1, h.2.2.2.2.2 (by decide) (by rfl)⟩

/-- C10: `resume(name)` on a registered descriptor whose handle is absent
arms a fresh platform timer and stores the new handle, with no requirement on
the global activation flag (which it leaves untouched) — so the timer can
fire although `start` was never issued. -/
theorem C10_resume_arms_unstarted (m : Sys) (nm : JSProp) (s : String)
    (h : asValidName nm = some s) (hpos : 0 ≤ jsFindIndex m.timers s)
    (hnone : (m.timers.getD (jsFindIndex m.timers s).toNat defaultDescriptor).timerId = none) :
    (m.resume nm).1 = Except.ok (jsFindIndex m.timers s) ∧
    ((m.resume nm).2.timers.getD (jsFindIndex m.timers s).toNat defaultDescriptor).timerId
      = some m.nextId ∧
    mkPending (m.timers.getD (jsFindIndex m.timers s).toNat defaultDescriptor) m.nextId
      ∈ (m.resume nm).2.pending ∧
    (m.resume nm).2.allStarted = m.allStarted := by
  have heq := resume_arms m nm s h hpos hnone
  have hilen : (jsFindIndex m.timers s).toNat < m.timers.length :=
    (jsFindIndex_found m.timers s hpos).1
  refine ⟨by rw [heq], ?_, ?_, by rw [heq]⟩
  · rw [heq]
    show ((m.timers.set _ _).getD _ defaultDescriptor).timerId = _
    rw [getD_set_self _ _ _ _ hilen]
  · rw [heq]
    exact List.mem_append_right _ (List.mem_singleton.mpr rfl)

/-- C10 witness: on `sysA` — registered but never started
(`allStarted = false`) — `resume('a')` arms timer 1 and stores the handle. -/
theorem C10_witness :
    sysA.allStarted = false ∧
    ((sysA.resume nameA).1 = Except.ok (jsFindIndex sysA.timers "a") ∧
      ((sysA.resume nameA).2.timers.getD (jsFindIndex sysA.timers "a").toNat
          defaultDescriptor).timerId = some sysA.nextId ∧
      mkPending (sysA.timers.getD (jsFindIndex sysA.timers "a").toNat defaultDescriptor)
          sysA.nextId ∈ (sysA.resume nameA).2.pending ∧
      (sysA.resume nameA).2.allStarted = sysA.allStarted) :=
  ⟨rfl, C10_resume_arms_unstarted sysA nameA "a" (by rfl) (by decide) (by rfl)⟩

/-- C8 counterexample: the state reached by `add(t1)`; `start()`;
`resume('t1')` is produced by a plain call sequence, yet its only descriptor
has a null handle while its platform timer is still armed: `_startTimer` sees
the armed handle, returns `null`, and `resume` stores that `null` without
clearing the timer. -/
theorem C8_counterexample :
    run Sys.init [Op.add rawA [], Op.start, Op.resume nameA] = sysOrphan ∧
    ∃ d ∈ sysOrphan.timers, d.timerId = none ∧
      ∃ pt ∈ sysOrphan.pending, pt.dname = d.name := by
  refine ⟨rfl, ?_⟩
  refine ⟨{ name := "a", delay := JSNum.int 0, interval := false,
            job := fun _ => Except.ok (JSVal.vnum (JSNum.int 42)), callbackParams := [],
            timerId := none }, ?_, rfl,
          { id := 1, interval := false, delay := JSNum.int 0, dname := "a", dparams := [],
            djob := fun _ => Except.ok (JSVal.vnum (JSNum.int 42)) }, ?_, rfl⟩
  · show _ ∈ sysOrphan.timers
    exact List.mem_singleton.mpr rfl
  · show _ ∈ sysOrphan.pending
    exact List.mem_singleton.mpr rfl

/-- C8 (amended): in every state reachable by sequences whose steps never
hand an already-armed descriptor to `_startTimer` — `resume` only called when
the resolved descriptor's handle is absent, `start` only when it re-arms
nothing armed — a descriptor with an absent handle has no armed platform
timer bearing its name. -/
theorem C8_absent_handle (m : Sys) (h : SafeReach m) :
    ∀ d ∈ m.timers, d.timerId = none → ∀ pt ∈ m.pending, pt.dname ≠ d.name := by
  obtain ⟨hnd, hpo⟩ := inv_reach m h
  intro d hd hdnone pt hpt hname
  obtain ⟨j, hj, hnm, hid⟩ := hpo pt hpt
  obtain ⟨k, hk, hkd⟩ := List.mem_iff_getElem.mp hd
  rw [List.getD_eq_getElem m.timers defaultDescriptor hj] at hnm hid
  by_cases hjk : j = k
  · subst hjk
    rw [hkd, hdnone] at hid
    exact Option.noConfusion hid
  · have hpw := List.pairwise_iff_getElem.mp hnd
    have hnames : (m.timers[j]).name = (m.timers[k]).name := by
      rw [hnm, hname, hkd]
    rcases Nat.lt_or_ge j k with hlt | hge
    · exact hpw j k hj hk hlt hnames
    · exact hpw k j hk hj (by omega) hnames.symm

/-- C8 witness: after `add(t1)`; `add(t2)`; `start()`; `pause('a')` — a safe
sequence — the still-armed timer for `"b"` does not bear the paused
descriptor's name `"a"`. -/
theorem C8_witness :
    ({ id := 2, interval := true, delay := JSNum.int 100, dname := "b", dparams := [],
       djob := fun _ => Except.error { name := "Error", message := "x", stack := "s" } } :
      PendingTimer).dname ≠
    ({ name := "a", delay := JSNum.int 0, interval := false,
       job := fun _ => Except.ok (JSVal.vnum (JSNum.int 42)), callbackParams := [],
       timerId := none } : Descriptor).name := by
  have h0 : SafeReach Sys.init := SafeReach.init
  have h1 : SafeReach sysA := @SafeReach.step Sys.init (Op.add rawA []) h0 True.intro
  have h2 : SafeReach sysAB := @SafeReach.step sysA (Op.add rawB []) h1 True.intro
  have hsafe : SafeOp sysAB Op.start := by
    show sysAB.allStarted = true ∨ _
    right
    intro i hi
    rcases i with _ | _ | k
    · rfl
    · rfl
    · exfalso
      rw [show sysAB.timers.length = 2 from rfl] at hi
      omega
  have h3 : SafeReach sysABStarted := @SafeReach.step sysAB Op.start h2 hsafe
  have h4 : SafeReach sysABPausedA :=
    @SafeReach.step sysABStarted (Op.pause nameA) h3 True.intro
  exact C8_absent_handle sysABPausedA h4
    { name := "a", delay := JSNum.int 0, interval := false,
      job := fun _ => Except.ok (JSVal.vnum (JSNum.int 42)), callbackParams := [], timerId := none }
    (List.mem_cons_self _ _) rfl
    { id := 2, interval := true, delay := JSNum.int 100, dname := "b", dparams := [],
      djob := fun _ => Except.error { name := "Error", message := "x", stack := "s" } }
    (List.mem_singleton.mpr rfl)

/-- C9 counterexample: `print()` returns `this.logData` itself; a caller that
clears the returned array clears the manager's log, so a later `print()` no
longer reflects the one entry the job firing appended. -/
theorem C9_counterexample :
    (mutateReturnedLog sysAFired (fun _ => [])).print ≠ sysAFired.logData ∧
    sysAFired.logData ≠ [] := by
  constructor
  · intro h
    rw [show (mutateReturnedLog sysAFired (fun _ => [])).print = [] from rfl] at h
    rw [show sysAFired.logData =
      [{ name := "a", inp := [], out := JSVal.vnum (JSNum.int 42), created := 0, error := none }]
      from rfl] at h
    exact List.noConfusion h
  · intro h
    rw [show sysAFired.logData =
      [{ name := "a", inp := [], out := JSVal.vnum (JSNum.int 42), created := 0, error := none }]
      from rfl] at h
    exact List.noConfusion h

/-- C9 (amended): `print()` returns the internal log itself, not a copy: a
caller's in-place mutation of the returned sequence becomes the manager's log
(subsequent `print()` returns the mutated sequence) and subsequent firings
append on top of the mutated sequence. -/
theorem C9_print_aliases_log (m : Sys) (f : List LogEntry → List LogEntry) (id : Nat) :
    m.print = m.logData ∧
    (mutateReturnedLog m f).print = f m.print ∧
    (mutateReturnedLog m f).logData = f m.logData ∧
    (∃ t, ((mutateReturnedLog m f).fire id).logData = f m.logData ++ t) :=
  ⟨rfl, rfl, rfl, fire_logData (mutateReturnedLog m f) id⟩
